import Mathlib

/-!
# Verification of the `wasm-rquickjs` wrapper-crate generator

This development shallowly embeds the staging/orchestration layer of the
`wasm-rquickjs` repository (crates/wasm-rquickjs/src/lib.rs and
crates/wasm-rquickjs/src/skeleton.rs) in Lean 4 and proves properties of it.

Strings are modelled as `List Char` (the character data of a Rust `String`),
filesystem paths as lists of path segments, and the output directory tree as a
function from paths to optional file contents.  Components that the repository
consumes as external libraries (the WIT resolver `wit_parser`, the case
converter `heck`, the embedded skeleton directory) are modelled by their
documented behaviour on the inputs the generator feeds them.
-/

namespace WasmRquickjs

/-! ## Basic string machinery (model of Rust `str` operations) -/

/-- A Rust string, modelled as its list of characters. -/
abbrev Chars := List Char

/-- A filesystem path, modelled as its list of segments
(`camino::Utf8Path` components). -/
abbrev FPath := List Chars

/-- Does `pat` occur at the very start of `s`?  Model of `str::starts_with` /
`Path::strip_prefix` succeeding, specialised to lists. -/
def isPre : Chars → Chars → Bool
  | [], _ => true
  | _ :: _, [] => false
  | p :: ps, c :: cs => p == c && isPre ps cs

/-- Does `pat` occur anywhere in `s` (as a contiguous substring)? -/
def hasOcc (pat : Chars) : Chars → Bool
  | [] => isPre pat []
  | c :: rest => isPre pat (c :: rest) || hasOcc pat rest

/-- Fueled worker for `replaceAll`: replaces non-overlapping occurrences of
`pat` by `rep`, scanning left to right, consuming one unit of fuel per step.
The fuel is an artifact of the embedding only; `replaceAll` always supplies
enough. -/
def replaceAllF (pat rep : Chars) : Nat → Chars → Chars
  | 0, s => s
  | Nat.succ f, s =>
    match s with
    | [] => []
    | c :: rest =>
      if isPre pat s then rep ++ replaceAllF pat rep f (s.drop pat.length)
      else c :: replaceAllF pat rep f rest

/-- Model of Rust `str::replace`: replace every non-overlapping occurrence of
`pat` in `s` by `rep`, leftmost first. -/
def replaceAll (pat rep s : Chars) : Chars :=
  replaceAllF pat rep s.length s

/-! ## Model of `heck::ToSnakeCase`, restricted to lowercase-ASCII input

WIT identifiers (package namespaces/names, interface names, world names) are
lowercase kebab-case words, so the generator only ever snake-cases strings of
lowercase letters, digits and separator characters (`-`, `:`, `@`, `.`).  On
such input, `heck` splits the string into maximal alphanumeric words and joins
them with underscores; this is the behaviour modelled here. -/

/-- A character that belongs to a word for `heck`'s purposes (restricted to
lowercase-ASCII input: lowercase letters and digits). -/
def isWordChar (c : Char) : Bool := c.isLower || c.isDigit

/-- Worker for `splitWords`; `acc` is the current word, reversed. -/
def splitWordsAux : Chars → Chars → List Chars
  | [], acc => if acc.isEmpty then [] else [acc.reverse]
  | c :: rest, acc =>
    if isWordChar c then splitWordsAux rest (c :: acc)
    else if acc.isEmpty then splitWordsAux rest []
    else acc.reverse :: splitWordsAux rest []

/-- Splits a string into its maximal alphanumeric words. -/
def splitWords (s : Chars) : List Chars := splitWordsAux s []

/-- Worker of `joinUnderscore`: prepends a separator before each word. -/
def prependUnderscore : List Chars → Chars
  | [] => []
  | w :: ws => '_' :: (w ++ prependUnderscore ws)

/-- Joins words with `'_'` separators. -/
def joinUnderscore : List Chars → Chars
  | [] => []
  | w :: ws => w ++ prependUnderscore ws

/-- Model of `heck::ToSnakeCase::to_snake_case` on lowercase-ASCII input:
split into alphanumeric words, join with underscores. -/
def toSnakeCase (s : Chars) : Chars := joinUnderscore (splitWords s)

/-! ## Model of `wit_parser::PackageName` -/

/-- Model of `wit_parser::PackageName`: a namespace, a name and an optional
version. -/
structure PackageName where
  ns : Chars
  name : Chars
  version : Option Chars
  deriving DecidableEq, Repr

/-- Model of `PackageName`'s `Display` implementation:
`namespace:name` or `namespace:name@version`. -/
def PackageName.toChars (p : PackageName) : Chars :=
  p.ns ++ ':' :: p.name ++ (match p.version with
    | some v => '@' :: v
    | none => [])

/-! ## Model of the resolved WIT graph (the relevant parts of `wit_parser::Resolve`)

Arena ids (`TypeId`, `InterfaceId`, `WorldId`, `PackageId`) are modelled as
natural numbers; the arenas themselves as association lists.  Arena indexing
(`resolve.worlds[id]`, which panics when the id is dangling) is modelled by
`alookup`; the dangling case is unreachable for contexts built by
`GeneratorContext::new`, and theorems assume the looked-up entry is present. -/

/-- Association-list lookup (model of arena indexing / `id_arena` access). -/
def alookup {α : Type} (k : Nat) : List (Nat × α) → Option α
  | [] => none
  | (k', v) :: rest => if k = k' then some v else alookup k rest

/-- Model of `wit_parser::TypeOwner`. -/
inductive TypeOwner where
  | world (id : Nat)
  | iface (id : Nat)
  | noOwner
  deriving DecidableEq, Repr

/-- Model of `wit_parser::TypeDef`, restricted to the field the generator's
export test reads: the owner. -/
structure TypeDefM where
  owner : TypeOwner
  deriving DecidableEq, Repr

/-- Model of `wit_parser::WorldItem`: a world export/import entry binds a name
to a function, an interface (by id) or a type (by id). -/
inductive WorldItem where
  | iface (id : Nat)
  | func (name : Chars)
  | typ (id : Nat)
  deriving DecidableEq, Repr

/-- Model of `wit_parser::World`, restricted to name, exports and imports. -/
structure WorldM where
  name : Chars
  exports : List (Chars × WorldItem)
  imports : List (Chars × WorldItem)
  deriving DecidableEq, Repr

/-- Model of `wit_parser::Interface`, restricted to the fields
`get_imported_interface` reads: the optional name, the function names and the
optional owning package. -/
structure InterfaceM where
  name : Option Chars
  functions : List Chars
  package : Option Nat
  deriving DecidableEq, Repr

/-- The per-package data `add_wit_dependencies` reads: the package name and
the source files recorded for the package by the resolver's
`PackageSourceMap` (absent when the source map has no entry for it). -/
structure PkgInfo where
  name : PackageName
  paths : Option (List FPath)
  deriving DecidableEq, Repr

/-- Model of `GeneratorContext` (minus the output path): the resolved graph,
the selected world, the root package and the source map, as produced by
`GeneratorContext::new` from the external resolver. -/
structure RCtx where
  worlds : List (Nat × WorldM)
  types : List (Nat × TypeDefM)
  interfaces : List (Nat × InterfaceM)
  packagesById : List (Nat × PackageName)
  packages : List PkgInfo
  selectedWorld : Nat
  worldName : Chars
  rootPackageName : PackageName
  witSourcePath : FPath

/-- Model of `GeneratorContext::is_exported_interface`: does the selected
world's export table contain an interface entry with the given id? -/
def isExportedInterface (ctx : RCtx) (interfaceId : Nat) : Bool :=
  match alookup ctx.selectedWorld ctx.worlds with
  | some w => w.exports.any (fun kv =>
      match kv.2 with
      | WorldItem.iface id => id == interfaceId
      | _ => false)
  | none => false

/-- Model of `GeneratorContext::is_exported_type`: dispatch on the type's
owner; a world-owned type is exported when its owner is the selected world and
it appears among the selected world's type export entries, an interface-owned
type is exported when its interface is, an unowned type never. -/
def isExportedType (ctx : RCtx) (typeId : Nat) : Bool :=
  match alookup typeId ctx.types with
  | some typ =>
    match typ.owner with
    | TypeOwner.world worldId =>
      if worldId = ctx.selectedWorld then
        match alookup ctx.selectedWorld ctx.worlds with
        | some w => w.exports.any (fun kv =>
            match kv.2 with
            | WorldItem.typ id => id == typeId
            | _ => false)
        | none => false
      else false
    | TypeOwner.iface interfaceId => isExportedInterface ctx interfaceId
    | TypeOwner.noOwner => false
  | none => false

/-! ## Model of `GeneratorContext::get_imported_interface` and
`ImportedInterface` -/

/-- The distinct diagnostics `get_imported_interface` can produce (the
corresponding source errors are `anyhow!` messages; only their identity
matters here).  `noSuchInterface` stands for the arena panic on a dangling
interface id, unreachable for resolved models. -/
inductive GetIfaceErr where
  | noSuchInterface (id : Nat)
  | importHasNoName
  | anonymousInterfaceImport
  | packageOfImportNotFound (interfaceName : Chars)
  deriving DecidableEq, Repr

/-- Model of `ImportedInterface`: the derived, read-only projection of an
interface built for an import site. -/
structure ImportedInterfaceM where
  packageName : Option PackageName
  name : Chars
  functions : List Chars
  interfaceId : Option Nat
  deriving DecidableEq, Repr

/-- Model of `GeneratorContext::get_imported_interface`: fails when the
interface has no name, or no owning package, or the owning package id is not
in the package arena. -/
def getImportedInterface (ctx : RCtx) (interfaceId : Nat) :
    Except GetIfaceErr ImportedInterfaceM :=
  match alookup interfaceId ctx.interfaces with
  | none => Except.error (GetIfaceErr.noSuchInterface interfaceId)
  | some interface =>
    match interface.name with
    | none => Except.error GetIfaceErr.importHasNoName
    | some name =>
      match interface.package with
      | none => Except.error GetIfaceErr.anonymousInterfaceImport
      | some packageId =>
        match alookup packageId ctx.packagesById with
        | none => Except.error (GetIfaceErr.packageOfImportNotFound name)
        | some packageName =>
          Except.ok
            { packageName := some packageName
              name := name
              functions := interface.functions
              interfaceId := some interfaceId }

/-- Model of `ImportedInterface::module_name`:
`snake_case(package_name.to_string()) ++ "_" ++ snake_case(interface_name)`. -/
def moduleName (packageName : PackageName) (interfaceName : Chars) : Chars :=
  toSnakeCase packageName.toChars ++ '_' :: toSnakeCase interfaceName

/-- The import-generation pass over the selected world's interface imports.

Modelled from the spec: the import generator (`imports.rs`, not under `src/`)
builds an `ImportedInterface` view via `get_imported_interface` for every
interface entry of the selected world's import table and propagates any
failure with `?` instead of skipping the entry. -/
def generateImportsPass (ctx : RCtx) : Except GetIfaceErr (List ImportedInterfaceM) :=
  match alookup ctx.selectedWorld ctx.worlds with
  | none => Except.error (GetIfaceErr.noSuchInterface ctx.selectedWorld)
  | some w =>
    (w.imports.filterMap (fun kv =>
      match kv.2 with
      | WorldItem.iface id => some id
      | _ => none)).mapM (getImportedInterface ctx)

/-! ## Model of `skeleton.rs`: the dependency table and the app manifest -/

/-- Segment-level path prefix test (model of `Path::strip_prefix`
succeeding). -/
def segIsPre : FPath → FPath → Bool
  | [], _ => true
  | _ :: _, [] => false
  | r :: rs, s :: ss => r == s && segIsPre rs ss

/-- Model of `path.strip_prefix(root).unwrap_or(path)`: drop the root's
segments when they are a prefix, otherwise keep the path unchanged. -/
def stripRoot (root p : FPath) : FPath :=
  if segIsPre root p then p.drop root.length else p

/-- Model of `Path::parent`: `None` for the empty path, otherwise the path
without its last segment (so a bare file name has parent `[]`, the empty
path). -/
def parentDir : FPath → Option FPath
  | [] => none
  | s :: ss => some (List.dropLast (s :: ss))

/-- The set of parent directories of a package's source files, relativized to
the WIT root — the contents of the `parents` BTreeSet in
`add_wit_dependencies` (as a duplicate-free list; only its cardinality and
its sole element when it is a singleton are consumed). -/
def dedupParents (root : FPath) (paths : List FPath) : List FPath :=
  (paths.filterMap (fun p => parentDir (stripRoot root p))).dedup

/-- The errors `add_wit_dependencies` can produce (carriers of the data the
`anyhow!` messages interpolate). -/
inductive DepError where
  | multipleSourceDirs (name : PackageName) (parents : List FPath)
  | noSourceDirs (name : PackageName)
  deriving DecidableEq, Repr

/-- The manifest key used for a dependency: the package name with the version
stripped, rendered (`package_name_without_version.to_string()`). -/
def depEntryKey (n : PackageName) : Chars :=
  PackageName.toChars { n with version := none }

/-- Model of `toml_edit::Table::insert`: replaces the value when the key is
already present, appends a new entry otherwise. -/
def tableInsert (k : Chars) (v : FPath) (t : List (Chars × FPath)) :
    List (Chars × FPath) :=
  if t.any (fun e => e.1 = k) then
    t.map (fun e => if e.1 = k then (k, v) else e)
  else t ++ [(k, v)]

/-- Worker of `addWitDependencies`: the `for` loop over
`context.resolve.packages`, threading the dependency table. -/
def addWitDepsLoop (root : FPath) :
    List PkgInfo → List (Chars × FPath) → Except DepError (List (Chars × FPath))
  | [], acc => Except.ok acc
  | p :: rest, acc =>
    match p.paths with
    | none => addWitDepsLoop root rest acc
    | some paths =>
      let parents := dedupParents root paths
      if 1 < parents.length then
        Except.error (DepError.multipleSourceDirs p.name parents)
      else
        match parents with
        | [] => Except.error (DepError.noSourceDirs p.name)
        | parent :: _ =>
          if parent = [] then addWitDepsLoop root rest acc
          else
            addWitDepsLoop root rest
              (tableInsert (depEntryKey p.name) ("wit".data :: parent) acc)

/-- Model of `add_wit_dependencies`: builds the
`package.metadata.component.target.dependencies` table.  For each resolved
package with recorded source files: relativize each file to the WIT root and
collect the distinct parent directories; more than one parent is an error
naming the package, none is an error, the root directory itself (`""`) is
skipped, and otherwise an entry `wit/<parent>` is inserted under the
version-stripped package name. -/
def addWitDependencies (root : FPath) (packages : List PkgInfo) :
    Except DepError (List (Chars × FPath)) :=
  addWitDepsLoop root packages []

/-- The `component_name` placeholder token of the skeleton `golem.yaml`. -/
def compTok : Chars := ['c', 'o', 'm', 'p', 'o', 'n', 'e', 'n', 't', '_', 'n', 'a', 'm', 'e']

/-- The `root:package` placeholder token of the skeleton `golem.yaml`. -/
def rootTok : Chars := ['r', 'o', 'o', 't', ':', 'p', 'a', 'c', 'k', 'a', 'g', 'e']

/-- Model of the substitution in `generate_app_manifest`: every occurrence of
`component_name` in the skeleton yaml is replaced by the snake-cased world
name, then every occurrence of `root:package` by the rendered root package
name. -/
def genAppManifest (rawYaml : Chars) (worldName : Chars) (rootPkg : Chars) : Chars :=
  replaceAll rootTok rootPkg (replaceAll compTok (toSnakeCase worldName) rawYaml)

/-! ## Model of the staged WIT documents

For the claims about the copied WIT tree, the contents of a staged file are
either plain text or a parsed WIT document; a document's worlds carry their
name and their import/export entry names.  Everything else in a document is
opaque. -/

/-- A WIT world as it appears in a staged `.wit` document. -/
structure WitWorldDef where
  name : Chars
  imports : List Chars
  exports : List Chars
  deriving DecidableEq, Repr

/-- A staged WIT document: its worlds plus opaque remaining text. -/
structure WitDoc where
  worlds : List WitWorldDef
  rest : Chars
  deriving DecidableEq, Repr

/-- The contents of a staged output file. -/
inductive FileData where
  | text (s : Chars)
  | wit (d : WitDoc)
  deriving DecidableEq, Repr

/-- The name of the synthetic import `add_get_script_import` adds to the
world. -/
def getScriptImportName : Chars := "get-script".data

/-- Is `w` the world selected by the optional world argument?  With a name
given, the world of that name; with none, the package's single default world
(modelled as every world of the document, which for generated-package inputs
is the unique one). -/
def selectedDocWorld (sel : Option Chars) (w : WitWorldDef) : Bool :=
  match sel with
  | some n => w.name == n
  | none => true

/-- Rewrites one WIT document for composition mode.

Modelled from the spec: `add_get_script_import` (`wit.rs`, not under `src/`)
rewrites the WIT world selected by the optional world name to declare one
additional synthetic import function, used to fetch the script contents at
runtime. -/
def patchDoc (sel : Option Chars) (d : WitDoc) : WitDoc :=
  { worlds := d.worlds.map (fun w =>
      if selectedDocWorld sel w then
        { w with imports := w.imports ++ [getScriptImportName] }
      else w)
    rest := d.rest }

/-! ## Model of the output directory tree and the staging operations -/

/-- The output directory tree: file contents by path, plus the set of created
directories. -/
structure FS where
  files : FPath → Option FileData
  dirs : FPath → Bool

/-- Model of `std::fs::create_dir_all` (restricted to recording the directory;
idempotent). -/
def mkdirAll (p : FPath) (t : FS) : FS :=
  { files := t.files, dirs := fun q => q = p || t.dirs q }

/-- Model of `std::fs::write` / `std::fs::copy` to a destination: overwrites
the file at `p`. -/
def writeFile (p : FPath) (c : FileData) (t : FS) : FS :=
  { files := fun q => if q = p then some c else t.files q, dirs := t.dirs }

/-- The last write to `p` among the writes `L`, if any. -/
def lastLookup (L : List (FPath × FileData)) (p : FPath) : Option FileData :=
  L.foldl (fun acc e => if e.1 = p then some e.2 else acc) none

/-- A sequence of file writes (later writes to the same path win), merged
into one tree update. -/
def writeMany (L : List (FPath × FileData)) (t : FS) : FS :=
  { files := fun p =>
      match lastLookup L p with
      | some v => some v
      | none => t.files p
    dirs := t.dirs }

/-- Model of `fs_extra::dir::create(output, true)`: erases every file under
the directory `d`. -/
def eraseUnder (d : FPath) (t : FS) : FS :=
  { files := fun p => if segIsPre d p then none else t.files p, dirs := t.dirs }

/-- Rewrites the file contents produced by `patchDoc`, leaving non-WIT files
unchanged. -/
def patchFile (sel : Option Chars) : Option FileData → Option FileData
  | some (FileData.wit d) => some (FileData.wit (patchDoc sel d))
  | o => o

/-- Model of `add_get_script_import` applied to the copied `<output>/wit`
directory: every staged WIT document under `wit/` has its selected world
rewritten. -/
def patchWitDir (sel : Option Chars) (t : FS) : FS :=
  { files := fun p =>
      if segIsPre ["wit".data] p then patchFile sel (t.files p) else t.files p
    dirs := t.dirs }

/-! ## Model of `JsModuleSpec` and `generate_wrapper_crate` -/

/-- Model of `EmbeddingMode`.  `embedFile` carries the contents of the file
the real mode points at (the generator's only use of the path is to copy the
file's bytes). -/
inductive EmbeddingModeM where
  | embedFile (contents : Chars)
  | composition
  deriving DecidableEq, Repr

/-- Model of `JsModuleSpec`. -/
structure JsModuleSpecM where
  name : Chars
  mode : EmbeddingModeM
  deriving DecidableEq, Repr

/-- Model of `JsModuleSpec::file_name`:
`self.name.replace('/', "_") + ".js"`. -/
def specFileName (name : Chars) : Chars :=
  name.map (fun c => if c = '/' then '_' else c) ++ ".js".data

/-- Model of `uses_composition`: does any module spec use composition
mode? -/
def usesComposition (mods : List JsModuleSpecM) : Bool :=
  mods.any (fun m =>
    match m.mode with
    | EmbeddingModeM.composition => true
    | _ => false)

/-- Model of `copy_js_modules` as the list of file writes it performs: each
embed-file module is copied to `src/<file_name>`; composition modules are
skipped. -/
def jsWrites (mods : List JsModuleSpecM) : List (FPath × FileData) :=
  mods.filterMap (fun m =>
    match m.mode with
    | EmbeddingModeM.embedFile c =>
      some (["src".data, specFileName m.name], FileData.text c)
    | EmbeddingModeM.composition => none)

/-- The code generators invoked by `generate_wrapper_crate`.

Modelled from the spec: `generate_export_impls`, `generate_import_modules`
and `generate_conversions` (modules `exports.rs`, `imports.rs`,
`conversions.rs`, not under `src/`) deterministically derive source text from
the resolved context (and the module specs), or fail; they are represented
here as arbitrary pure functions, together with the rendering of the
`Cargo.toml` skeleton around the dependency table from `add_wit_dependencies`.
`importModules` yields one generated module file name (under `src/modules/`)
per imported module together with its contents. -/
structure Gens where
  renderCargoToml : Chars → List (Chars × FPath) → Chars
  exportImpls : RCtx → List JsModuleSpecM → Except Chars Chars
  importModules : RCtx → Except Chars (List (Chars × Chars))
  conversions : RCtx → Except Chars Chars

/-- The inputs of one `generate_wrapper_crate` run.  The WIT resolution is an
external collaborator (`wit_parser`), so its outcome on the given WIT root is
part of the input; `witFiles` is the WIT package tree on disk at that root
(paths relative to the WIT root), `skeletonFiles` and `cargoConfigFiles` the
embedded skeleton contents, `rawGolemYaml` the skeleton app manifest. -/
structure GenInput where
  resolveResult : Except Chars RCtx
  worldArg : Option Chars
  jsModules : List JsModuleSpecM
  skeletonFiles : List (FPath × FileData)
  cargoConfigFiles : List (FPath × FileData)
  rawGolemYaml : Chars
  witFiles : List (FPath × FileData)

/-- The error surfaced by a failed generation run, tagged by the failing
stage (each stage wraps its cause with a context message in the source). -/
inductive GenErr where
  | resolveErr (e : Chars)
  | depErr (e : DepError)
  | exportErr (e : Chars)
  | importErr (e : Chars)
  | convErr (e : Chars)
  deriving DecidableEq, Repr

/-- The stages of `generate_wrapper_crate`, in the order the source performs
them; a run's trace lists the stages it completed. -/
inductive StepTag where
  | mkdirs
  | resolveWit
  | cargoToml
  | appManifest
  | skeletonCopy
  | cargoConfig
  | copyWitTree
  | addGetScriptImport
  | copyJsModules
  | exportImpls
  | importModules
  | conversions
  deriving DecidableEq, Repr

/-- The outcome of a generation run: the resulting output tree, the trace of
completed stages, and the error if the run failed. -/
structure GenResult where
  fs : FS
  steps : List StepTag
  err : Option GenErr

/-- The WIT tree writes of `copy_wit_directory`: each file of the input tree,
re-rooted under `wit/`. -/
def witPrefixed (wf : List (FPath × FileData)) : List (FPath × FileData) :=
  wf.map (fun e => ("wit".data :: e.1, e.2))

/-- The stages completed by a run that got as far as copying the JS modules. -/
def stepsThroughJs (comp : Bool) : List StepTag :=
  [StepTag.mkdirs, StepTag.resolveWit, StepTag.cargoToml, StepTag.appManifest,
   StepTag.skeletonCopy, StepTag.cargoConfig, StepTag.copyWitTree] ++
  (if comp then [StepTag.addGetScriptImport] else []) ++
  [StepTag.copyJsModules]

/-- The three `create_dir_all` calls at the top of `generate_wrapper_crate`:
`output`, `output/src`, `output/src/modules` (paths relative to the output
root, which is `[]`). -/
def stepDirs (t : FS) : FS :=
  mkdirAll ["src".data, "modules".data] (mkdirAll ["src".data] (mkdirAll [] t))

/-- Model of `generate_cargo_toml`'s write of the rewritten manifest. -/
def stepCargoToml (g : Gens) (ctx : RCtx) (depTable : List (Chars × FPath))
    (t : FS) : FS :=
  writeFile ["Cargo.toml".data]
    (FileData.text (g.renderCargoToml ctx.worldName depTable)) t

/-- Model of `generate_app_manifest`'s write of the substituted `golem.yaml`. -/
def stepAppManifest (inp : GenInput) (ctx : RCtx) (t : FS) : FS :=
  writeFile ["golem.yaml".data]
    (FileData.text (genAppManifest inp.rawGolemYaml ctx.worldName
      ctx.rootPackageName.toChars)) t

/-- Model of `copy_skeleton_sources`: the skeleton files are written and `src/builtin`
created. -/
def stepSkeleton (inp : GenInput) (t : FS) : FS :=
  mkdirAll ["src".data, "builtin".data] (writeMany inp.skeletonFiles t)

/-- Model of `copy_cargo_config`: when the skeleton carries a `.cargo` directory, it
is created and its files written; otherwise nothing happens. -/
def stepCargoConfig (inp : GenInput) (t : FS) : FS :=
  match inp.cargoConfigFiles with
  | [] => t
  | cc => writeMany cc (mkdirAll [".cargo".data] t)

/-- Model of `copy_wit_directory` followed by the conditional `add_get_script_import`:
the output `wit/` directory is erased, the input WIT tree copied under it,
and — when any module spec uses composition mode — the copied world
rewritten. -/
def stepWitAndPatch (inp : GenInput) (t : FS) : FS :=
  let t6 := writeMany (witPrefixed inp.witFiles) (eraseUnder ["wit".data] t)
  if usesComposition inp.jsModules then patchWitDir inp.worldArg t6 else t6

/-- Model of `copy_js_modules`. -/
def stepJs (inp : GenInput) (t : FS) : FS :=
  writeMany (jsWrites inp.jsModules) t

/-- Model of `generate_export_impls`' write of `src/lib.rs`. -/
def stepLib (libRs : Chars) (t : FS) : FS :=
  writeFile ["src".data, "lib.rs".data] (FileData.text libRs) t

/-- Model of `generate_import_modules`' writes under `src/modules/`. -/
def stepImports (mods : List (Chars × Chars)) (t : FS) : FS :=
  writeMany
    (mods.map (fun m => (["src".data, "modules".data, m.1], FileData.text m.2))) t

/-- Model of `generate_conversions`' write of `src/conversions.rs`. -/
def stepConv (conv : Chars) (t : FS) : FS :=
  writeFile ["src".data, "conversions.rs".data] (FileData.text conv) t

/-- Model of `generate_wrapper_crate`, mirroring the source's order of
operations: create the three output directories, resolve the WIT package,
generate `Cargo.toml` (failing on a bad dependency layout before writing),
write the app manifest, copy the skeleton sources and cargo config, erase and
re-copy the WIT tree under `wit/`, rewrite the copied world when any module
uses composition mode, copy the embed-mode JS modules, then run the export
generator, the import generator and the conversion generator. -/
def runGenerate (g : Gens) (inp : GenInput) (t0 : FS) : GenResult :=
  let t1 := stepDirs t0
  match inp.resolveResult with
  | Except.error e =>
    { fs := t1, steps := [StepTag.mkdirs], err := some (GenErr.resolveErr e) }
  | Except.ok ctx =>
    match addWitDependencies ctx.witSourcePath ctx.packages with
    | Except.error e =>
      { fs := t1, steps := [StepTag.mkdirs, StepTag.resolveWit]
        err := some (GenErr.depErr e) }
    | Except.ok depTable =>
      let t8 := stepJs inp (stepWitAndPatch inp (stepCargoConfig inp
        (stepSkeleton inp (stepAppManifest inp ctx
          (stepCargoToml g ctx depTable t1)))))
      match g.exportImpls ctx inp.jsModules with
      | Except.error e =>
        { fs := t8, steps := stepsThroughJs (usesComposition inp.jsModules)
          err := some (GenErr.exportErr e) }
      | Except.ok libRs =>
        let t9 := stepLib libRs t8
        match g.importModules ctx with
        | Except.error e =>
          { fs := t9
            steps := stepsThroughJs (usesComposition inp.jsModules) ++
              [StepTag.exportImpls]
            err := some (GenErr.importErr e) }
        | Except.ok mods =>
          let t10 := stepImports mods t9
          match g.conversions ctx with
          | Except.error e =>
            { fs := t10
              steps := stepsThroughJs (usesComposition inp.jsModules) ++
                [StepTag.exportImpls, StepTag.importModules]
              err := some (GenErr.convErr e) }
          | Except.ok conv =>
            let t11 := stepConv conv t10
            { fs := t11
              steps := stepsThroughJs (usesComposition inp.jsModules) ++
                [StepTag.exportImpls, StepTag.importModules, StepTag.conversions]
              err := none }

/-! ## C1: exported-ness of a type is a pure function of the owner and the
selected world's export table -/

/-- Spec-side reading of "the interface appears in the selected world's
export set". -/
def worldExportsInterface (w : WorldM) (i : Nat) : Prop :=
  ∃ kv ∈ w.exports, kv.2 = WorldItem.iface i

/-- Spec-side reading of "the type appears among the world's export
entries". -/
def worldExportsType (w : WorldM) (tid : Nat) : Prop :=
  ∃ kv ∈ w.exports, kv.2 = WorldItem.typ tid

theorem any_iface_iff (w : WorldM) (i : Nat) :
    (w.exports.any (fun kv =>
      match kv.2 with
      | WorldItem.iface id => id == i
      | _ => false) = true) ↔ worldExportsInterface w i := by
  rw [List.any_eq_true]
  constructor
  · rintro ⟨kv, hmem, hkv⟩
    refine ⟨kv, hmem, ?_⟩
    cases h2 : kv.2 <;> rw [h2] at hkv <;> simp at hkv
    rw [hkv]
  · rintro ⟨kv, hmem, hkv⟩
    exact ⟨kv, hmem, by rw [hkv]; simp⟩

theorem any_typ_iff (w : WorldM) (tid : Nat) :
    (w.exports.any (fun kv =>
      match kv.2 with
      | WorldItem.typ id => id == tid
      | _ => false) = true) ↔ worldExportsType w tid := by
  rw [List.any_eq_true]
  constructor
  · rintro ⟨kv, hmem, hkv⟩
    refine ⟨kv, hmem, ?_⟩
    cases h2 : kv.2 <;> rw [h2] at hkv <;> simp at hkv
    rw [hkv]
  · rintro ⟨kv, hmem, hkv⟩
    exact ⟨kv, hmem, by rw [hkv]; simp⟩

/-- C1: for every type identifier present in the resolved model, the
membership test "is type Y exported" is a pure function of the type's owner
and the selected world's export table: a type owned by no one is never
exported; a type owned by an interface is exported exactly when that
interface appears in the selected world's export set; a type owned by a
world is exported exactly when that world is the selected world and the type
appears among that world's export entries. -/
theorem isExportedType_pure_of_owner (ctx : RCtx) (tid : Nat) (td : TypeDefM)
    (w : WorldM) (ht : alookup tid ctx.types = some td)
    (hw : alookup ctx.selectedWorld ctx.worlds = some w) :
    (td.owner = TypeOwner.noOwner → isExportedType ctx tid = false) ∧
    (∀ i, td.owner = TypeOwner.iface i →
      (isExportedType ctx tid = true ↔ worldExportsInterface w i)) ∧
    (∀ wid, td.owner = TypeOwner.world wid →
      (isExportedType ctx tid = true ↔
        (wid = ctx.selectedWorld ∧ worldExportsType w tid))) := by
  refine ⟨?_, ?_, ?_⟩
  · intro hown
    simp [isExportedType, ht, hown]
  · intro i hown
    simp only [isExportedType, ht, hown, isExportedInterface, hw]
    exact any_iface_iff w i
  · intro wid hown
    simp only [isExportedType, ht, hown]
    by_cases hsel : wid = ctx.selectedWorld
    · subst hsel
      rw [if_pos rfl]
      simp only [hw]
      rw [any_typ_iff w tid]
      simp
    · simp [hsel]

/-- Concrete context for the C1 witness: the selected world `0` exports the
interface `5`, which owns type `1`. -/
def ctxC1 : RCtx where
  worlds := [(0, { name := "w".data
                   exports := [("i".data, WorldItem.iface 5)]
                   imports := [] })]
  types := [(1, { owner := TypeOwner.iface 5 })]
  interfaces := []
  packagesById := []
  packages := []
  selectedWorld := 0
  worldName := "w".data
  rootPackageName := { ns := "a".data, name := "b".data, version := none }
  witSourcePath := []

/-- The selected world of `ctxC1`. -/
def worldC1 : WorldM where
  name := "w".data
  exports := [("i".data, WorldItem.iface 5)]
  imports := []

/-- Witness for C1 at a concrete context: type `1` is owned by interface `5`
and the test agrees with membership in the export set. -/
theorem isExportedType_pure_of_owner_witness :
    isExportedType ctxC1 1 = true ↔ worldExportsInterface worldC1 5 :=
  (isExportedType_pure_of_owner ctxC1 1 { owner := TypeOwner.iface 5 } worldC1
    (by decide) (by decide)).2.1 5 rfl

/-! ## C4: anonymous-interface imports fail generation -/

theorem mapM_error_of_mem {α β ε : Type} (f : α → Except ε β) (l : List α)
    (x : α) (hx : x ∈ l) (e : ε) (hf : f x = Except.error e) :
    ∃ e', l.mapM f = Except.error e' := by
  induction l with
  | nil => simp at hx
  | cons a l ih =>
    rw [List.mapM_cons]
    rcases List.mem_cons.mp hx with h1 | h1
    · subst h1
      rw [hf]
      exact ⟨e, rfl⟩
    · cases ha : f a with
      | error ea => exact ⟨ea, rfl⟩
      | ok b =>
        obtain ⟨e', he'⟩ := ih h1
        simp only [ha, he']
        exact ⟨e', rfl⟩

/-- C4: a world import that is an anonymous interface (no name, or no owning
package) makes the import pass fail with a diagnostic identifying the
problem — a missing name yields the no-name diagnostic and a missing owning
package the anonymous-interface diagnostic — rather than being silently
skipped. -/
theorem anonymous_import_fails (ctx : RCtx) (w : WorldM) (iid : Nat)
    (ifc : InterfaceM) (key : Chars)
    (hw : alookup ctx.selectedWorld ctx.worlds = some w)
    (hmem : (key, WorldItem.iface iid) ∈ w.imports)
    (hifc : alookup iid ctx.interfaces = some ifc)
    (hanon : ifc.name = none ∨ ifc.package = none) :
    (∃ e, generateImportsPass ctx = Except.error e) ∧
    (ifc.name = none →
      getImportedInterface ctx iid = Except.error GetIfaceErr.importHasNoName) ∧
    (∀ n, ifc.name = some n → ifc.package = none →
      getImportedInterface ctx iid =
        Except.error GetIfaceErr.anonymousInterfaceImport) := by
  have herr : ∃ e0, getImportedInterface ctx iid = Except.error e0 := by
    rcases hanon with hname | hpkg
    · exact ⟨GetIfaceErr.importHasNoName, by simp [getImportedInterface, hifc, hname]⟩
    · cases hname : ifc.name with
      | none => exact ⟨GetIfaceErr.importHasNoName,
          by simp [getImportedInterface, hifc, hname]⟩
      | some n => exact ⟨GetIfaceErr.anonymousInterfaceImport,
          by simp [getImportedInterface, hifc, hname, hpkg]⟩
  refine ⟨?_, ?_, ?_⟩
  · obtain ⟨e0, he0⟩ := herr
    rw [generateImportsPass, hw]
    apply mapM_error_of_mem _ _ iid _ e0 he0
    apply List.mem_filterMap.mpr
    exact ⟨(key, WorldItem.iface iid), hmem, rfl⟩
  · intro hname
    simp [getImportedInterface, hifc, hname]
  · intro n hname hpkg
    simp [getImportedInterface, hifc, hname, hpkg]

/-- Concrete context for the C4 witness: the selected world imports interface
`3`, which has a name but no owning package. -/
def ctxC4 : RCtx where
  worlds := [(0, { name := "w".data
                   exports := []
                   imports := [("i".data, WorldItem.iface 3)] })]
  types := []
  interfaces := [(3, { name := some "logging".data
                       functions := []
                       package := none })]
  packagesById := []
  packages := []
  selectedWorld := 0
  worldName := "w".data
  rootPackageName := { ns := "a".data, name := "b".data, version := none }
  witSourcePath := []

/-- Witness for C4: on `ctxC4` the import pass fails, and the
anonymous-package diagnostic is produced. -/
theorem anonymous_import_fails_witness :
    (∃ e, generateImportsPass ctxC4 = Except.error e) ∧
    getImportedInterface ctxC4 3 =
      Except.error GetIfaceErr.anonymousInterfaceImport := by
  have h := anonymous_import_fails ctxC4
    { name := "w".data, exports := [], imports := [("i".data, WorldItem.iface 3)] }
    3 { name := some "logging".data, functions := [], package := none }
    "i".data (by decide) (by simp) (by decide) (Or.inr rfl)
  exact ⟨h.1, h.2.2 "logging".data rfl rfl⟩

/-! ## C5: qualified module names derived from package + interface names

The derivation `snake(package) ++ "_" ++ snake(interface)` is *not* injective
over package+interface pairs: a hyphen can migrate across the separator
(`a:b-c` / `d` versus `a:b` / `c-d` both yield `a_b_c_d`).  What does hold is
injectivity over the interface names of one fixed package, for interface
names that are WIT kebab-case identifiers. -/

/-- First colliding pair for the C5 counterexample: package `a:b-c`. -/
def pkgC5a : PackageName where
  ns := "a".data
  name := "b-c".data
  version := none

/-- Second colliding pair for the C5 counterexample: package `a:b`. -/
def pkgC5b : PackageName where
  ns := "a".data
  name := "b".data
  version := none

/-- Worker of `joinDash`. -/
def prependDash : List Chars → Chars
  | [] => []
  | w :: ws => '-' :: (w ++ prependDash ws)

/-- Joins words with `'-'` separators: the rendering of a kebab-case
identifier from its words. -/
def joinDash : List Chars → Chars
  | [] => []
  | w :: ws => w ++ prependDash ws

/-- The words of a WIT kebab-case identifier: each word nonempty and made of
word characters (lowercase alphanumerics). -/
def KebabWords (ws : List Chars) : Prop :=
  ∀ w ∈ ws, w ≠ [] ∧ ∀ c ∈ w, isWordChar c = true

instance (ws : List Chars) : Decidable (KebabWords ws) := by
  unfold KebabWords
  infer_instance

theorem splitWordsAux_word (w : Chars) (hw : ∀ c ∈ w, isWordChar c = true)
    (s acc : Chars) :
    splitWordsAux (w ++ s) acc = splitWordsAux s (w.reverse ++ acc) := by
  induction w generalizing acc with
  | nil => simp
  | cons c w' ih =>
    have hc : isWordChar c = true := hw c (List.mem_cons_self c w')
    have hw' : ∀ c' ∈ w', isWordChar c' = true :=
      fun c' hc' => hw c' (List.mem_cons_of_mem c hc')
    simp only [List.cons_append, splitWordsAux, hc, if_pos, List.append_eq]
    rw [ih hw' (c :: acc)]
    simp

theorem splitWords_joinDash (ws : List Chars) (h : KebabWords ws) :
    splitWords (joinDash ws) = ws := by
  induction ws with
  | nil => rfl
  | cons w ws' ih =>
    have hw : w ≠ [] ∧ ∀ c ∈ w, isWordChar c = true := h w (List.mem_cons_self w ws')
    have hws' : KebabWords ws' := fun x hx => h x (List.mem_cons_of_mem w hx)
    rw [splitWords, joinDash, splitWordsAux_word w hw.2]
    cases ws' with
    | nil =>
      simp only [prependDash, splitWordsAux, List.append_nil]
      rw [if_neg, List.reverse_reverse]
      simp [List.isEmpty_eq_true, hw.1]
    | cons w2 ws2 =>
      have hdash : isWordChar '-' = false := by decide
      simp only [prependDash, splitWordsAux, hdash, List.append_nil]
      rw [if_neg (by simp), if_neg (by simp [List.isEmpty_eq_true, hw.1]),
        List.reverse_reverse]
      have := ih hws'
      rw [splitWords, joinDash] at this
      rw [this]

theorem isWordChar_ne_underscore (c : Char) (h : isWordChar c = true) :
    c ≠ '_' := by
  intro heq
  subst heq
  simp [isWordChar] at h

/-- A `prependUnderscore` result is empty or starts with the separator. -/
theorem prependUnderscore_shape (ws : List Chars) :
    prependUnderscore ws = [] ∨ ∃ r, prependUnderscore ws = '_' :: r := by
  cases ws with
  | nil => exact Or.inl rfl
  | cons w ws' => exact Or.inr ⟨w ++ prependUnderscore ws', rfl⟩

theorem sepFree_append_cancel :
    ∀ w1 w2 t1 t2 : Chars, '_' ∉ w1 → '_' ∉ w2 →
    (t1 = [] ∨ ∃ r, t1 = '_' :: r) → (t2 = [] ∨ ∃ r, t2 = '_' :: r) →
    w1 ++ t1 = w2 ++ t2 → w1 = w2 ∧ t1 = t2 := by
  intro w1
  induction w1 with
  | nil =>
    intro w2 t1 t2 _ hw2 ht1 _ heq
    cases w2 with
    | nil => exact ⟨rfl, heq⟩
    | cons d w2' =>
      exfalso
      simp only [List.nil_append, List.cons_append] at heq
      rcases ht1 with h | ⟨r, h⟩
      · rw [h] at heq
        exact List.noConfusion heq
      · rw [h] at heq
        have hd : d = '_' := (List.cons.injEq _ _ _ _ ▸ heq).1.symm
        exact hw2 (hd ▸ List.mem_cons_self d w2')
  | cons c w1' ih =>
    intro w2 t1 t2 hw1 hw2 ht1 ht2 heq
    cases w2 with
    | nil =>
      exfalso
      simp only [List.cons_append, List.nil_append] at heq
      rcases ht2 with h | ⟨r, h⟩
      · rw [h] at heq
        exact List.noConfusion heq
      · rw [h] at heq
        have hc : c = '_' := (List.cons.injEq _ _ _ _ ▸ heq).1
        exact hw1 (hc ▸ List.mem_cons_self c w1')
    | cons d w2' =>
      simp only [List.cons_append] at heq
      have hcd := (List.cons.injEq _ _ _ _ ▸ heq).1
      have htail := (List.cons.injEq _ _ _ _ ▸ heq).2
      have hw1' : '_' ∉ w1' := fun hx => hw1 (List.mem_cons_of_mem c hx)
      have hw2' : '_' ∉ w2' := fun hx => hw2 (List.mem_cons_of_mem d hx)
      obtain ⟨hww, htt⟩ := ih w2' t1 t2 hw1' hw2' ht1 ht2 htail
      exact ⟨by rw [hcd, hww], htt⟩

/-- Words of an identifier contain no underscore. -/
theorem kebab_no_underscore {ws : List Chars} (h : KebabWords ws) :
    ∀ w ∈ ws, '_' ∉ w := by
  intro w hw hx
  exact isWordChar_ne_underscore '_' ((h w hw).2 '_' hx) rfl

theorem joinUnderscore_inj :
    ∀ ws1 ws2 : List Chars,
    (∀ w ∈ ws1, w ≠ [] ∧ '_' ∉ w) → (∀ w ∈ ws2, w ≠ [] ∧ '_' ∉ w) →
    joinUnderscore ws1 = joinUnderscore ws2 → ws1 = ws2 := by
  intro ws1
  induction ws1 with
  | nil =>
    intro ws2 _ h2 heq
    cases ws2 with
    | nil => rfl
    | cons w ws2' =>
      exfalso
      rw [joinUnderscore, joinUnderscore] at heq
      rcases List.append_eq_nil.mp heq.symm with ⟨hw, _⟩
      exact (h2 w (List.mem_cons_self w ws2')).1 hw
  | cons w1 ws1' ih =>
    intro ws2 h1 h2 heq
    cases ws2 with
    | nil =>
      exfalso
      rw [joinUnderscore, joinUnderscore] at heq
      rcases List.append_eq_nil.mp heq with ⟨hw, _⟩
      exact (h1 w1 (List.mem_cons_self w1 ws1')).1 hw
    | cons w2 ws2' =>
      rw [joinUnderscore, joinUnderscore] at heq
      obtain ⟨hww, htt⟩ := sepFree_append_cancel w1 w2 _ _
        (h1 w1 (List.mem_cons_self w1 ws1')).2
        (h2 w2 (List.mem_cons_self w2 ws2')).2
        (prependUnderscore_shape ws1') (prependUnderscore_shape ws2') heq
      have h1' : ∀ w ∈ ws1', w ≠ [] ∧ '_' ∉ w :=
        fun x hx => h1 x (List.mem_cons_of_mem w1 hx)
      have h2' : ∀ w ∈ ws2', w ≠ [] ∧ '_' ∉ w :=
        fun x hx => h2 x (List.mem_cons_of_mem w2 hx)
      have htails : ws1' = ws2' := by
        cases ws1' with
        | nil =>
          cases ws2' with
          | nil => rfl
          | cons b bs => exact absurd htt.symm (by simp [prependUnderscore])
        | cons a as =>
          cases ws2' with
          | nil => exact absurd htt (by simp [prependUnderscore])
          | cons b bs =>
            rw [prependUnderscore, prependUnderscore] at htt
            have := (List.cons.injEq _ _ _ _ ▸ htt).2
            exact ih (b :: bs) h1' h2'
              (by rw [joinUnderscore, joinUnderscore]; exact this)
      rw [hww, htails]

/-- C5 counterexample: the module-name derivation is not injective over
distinct (package name, interface name) pairs — package `a:b-c` with
interface `d` and package `a:b` with interface `c-d` derive the same
qualified module name `a_b_c_d`. -/
theorem moduleName_not_injective :
    (pkgC5a, "d".data) ≠ (pkgC5b, "c-d".data) ∧
    moduleName pkgC5a "d".data = moduleName pkgC5b "c-d".data := by
  decide

/-- C5 amended: for one fixed owning package, the qualified module-name
derivation is injective over interface names that are WIT kebab-case
identifiers (distinct identifiers yield distinct module names); across
different packages a hyphen can migrate over the separator and collide. -/
theorem moduleName_inj_same_package (p : PackageName) (ws1 ws2 : List Chars)
    (h1 : KebabWords ws1) (h2 : KebabWords ws2) (hne : ws1 ≠ ws2) :
    moduleName p (joinDash ws1) ≠ moduleName p (joinDash ws2) := by
  intro heq
  rw [moduleName, moduleName] at heq
  have hsnake : toSnakeCase (joinDash ws1) = toSnakeCase (joinDash ws2) := by
    have := List.append_cancel_left heq
    exact (List.cons.injEq _ _ _ _ ▸ this).2
  rw [toSnakeCase, toSnakeCase, splitWords_joinDash ws1 h1,
    splitWords_joinDash ws2 h2] at hsnake
  have hw1 : ∀ w ∈ ws1, w ≠ [] ∧ '_' ∉ w :=
    fun w hw => ⟨(h1 w hw).1, kebab_no_underscore h1 w hw⟩
  have hw2 : ∀ w ∈ ws2, w ≠ [] ∧ '_' ∉ w :=
    fun w hw => ⟨(h2 w hw).1, kebab_no_underscore h2 w hw⟩
  exact hne (joinUnderscore_inj ws1 ws2 hw1 hw2 hsnake)

/-- Witness for the amended C5 at concrete inputs: for package `a:b`, the
kebab-case interfaces `c-d` and `cd` derive distinct module names. -/
theorem moduleName_inj_same_package_witness :
    moduleName pkgC5b (joinDash ["c".data, "d".data]) ≠
      moduleName pkgC5b (joinDash ["cd".data]) :=
  moduleName_inj_same_package pkgC5b ["c".data, "d".data] ["cd".data]
    (by decide) (by decide) (by decide)

/-! ## C9: placeholder substitution in the app manifest

`Subst pat rep s t` is the declarative reading of "t is s with every
(leftmost, non-overlapping) occurrence of `pat` substituted by `rep`"; it is
the spec-side counterpart of the executable `replaceAll`. -/

/-- Declarative substitution: either no occurrence remains and the string is
unchanged, or the leftmost occurrence (no occurrence starts before it) is
replaced and substitution continues in the tail. -/
inductive Subst (pat rep : Chars) : Chars → Chars → Prop
  | noOccurrence (s : Chars) (h : hasOcc pat s = false) : Subst pat rep s s
  | leftmost (a b t : Chars)
      (hleft : ∀ i, i < a.length → isPre pat ((a ++ pat ++ b).drop i) = false)
      (hrec : Subst pat rep b t) :
      Subst pat rep (a ++ pat ++ b) (a ++ rep ++ t)

theorem replaceAllF_no_occ (pat rep : Chars) :
    ∀ (f : Nat) (s : Chars), hasOcc pat s = false → replaceAllF pat rep f s = s := by
  intro f
  induction f with
  | zero => intro s _; rfl
  | succ f ih =>
    intro s h
    cases s with
    | nil => rfl
    | cons c rest =>
      rw [hasOcc, Bool.or_eq_false_iff] at h
      rw [replaceAllF, if_neg (by simp [h.1]), ih rest h.2]

theorem isPre_take_eq (pat : Chars) :
    ∀ s : Chars, isPre pat s = true → s = pat ++ s.drop pat.length := by
  induction pat with
  | nil => intro s _; rfl
  | cons p ps ih =>
    intro s h
    cases s with
    | nil => exact absurd h (by rw [isPre]; simp)
    | cons c rest =>
      rw [isPre, Bool.and_eq_true, beq_iff_eq] at h
      rw [List.cons_append]
      have := ih rest h.2
      rw [h.1]
      simp only [List.length_cons, List.drop_succ_cons]
      rw [← this]

theorem Subst.consNotHere (pat rep : Chars) (c : Char) (b t : Chars)
    (hsub : Subst pat rep b t) (hp : isPre pat (c :: b) = false) :
    Subst pat rep (c :: b) (c :: t) := by
  cases hsub with
  | noOccurrence _ h =>
    exact Subst.noOccurrence (c :: b) (by rw [hasOcc, hp, h]; rfl)
  | leftmost a b' t' hleft hrec =>
    have h1 : c :: (a ++ pat ++ b') = (c :: a) ++ pat ++ b' := by simp
    have h2 : c :: (a ++ rep ++ t') = (c :: a) ++ rep ++ t' := by simp
    rw [h1, h2]
    refine Subst.leftmost (c :: a) b' t' ?_ hrec
    intro i hi
    cases i with
    | zero =>
      have : (c :: a) ++ pat ++ b' = c :: (a ++ pat ++ b') := by simp
      rw [this, List.drop_zero]
      exact hp
    | succ j =>
      have hj : j < a.length := by
        simpa using Nat.lt_of_succ_lt_succ hi
      have : ((c :: a) ++ pat ++ b').drop (j + 1) = (a ++ pat ++ b').drop j := by
        simp
      rw [this]
      exact hleft j hj

theorem pat_length_pos {pat : Chars} (hpat : pat ≠ []) : 0 < pat.length := by
  cases pat with
  | nil => exact absurd rfl hpat
  | cons p ps => simp

theorem hasOcc_nil (pat : Chars) (hpat : pat ≠ []) : hasOcc pat [] = false := by
  cases pat with
  | nil => exact absurd rfl hpat
  | cons p ps => rfl

theorem replaceAllF_subst (pat rep : Chars) (hpat : pat ≠ []) :
    ∀ (f : Nat) (s : Chars), s.length ≤ f →
    Subst pat rep s (replaceAllF pat rep f s) := by
  intro f
  induction f with
  | zero =>
    intro s hs
    have : s = [] := List.length_eq_zero.mp (Nat.le_zero.mp hs)
    subst this
    exact Subst.noOccurrence [] (hasOcc_nil pat hpat)
  | succ f ih =>
    intro s hs
    cases s with
    | nil => exact Subst.noOccurrence [] (hasOcc_nil pat hpat)
    | cons c rest =>
      by_cases hp : isPre pat (c :: rest) = true
      · rw [replaceAllF, if_pos hp]
        have hsplit := isPre_take_eq pat (c :: rest) hp
        have hblen : ((c :: rest).drop pat.length).length ≤ f := by
          rw [List.length_drop]
          have h1 : (c :: rest).length ≤ f + 1 := hs
          have h2 := pat_length_pos hpat
          omega
        have hrec := ih ((c :: rest).drop pat.length) hblen
        have := @Subst.leftmost pat rep [] ((c :: rest).drop pat.length)
          (replaceAllF pat rep f ((c :: rest).drop pat.length))
          (by intro i hi; simp at hi) hrec
        simpa [← hsplit] using this
      · rw [replaceAllF, if_neg hp]
        exact Subst.consNotHere pat rep c rest _
          (ih rest (Nat.le_of_succ_le_succ hs)) (by simpa using hp)

/-- Soundness: `replaceAll` performs exactly the declarative leftmost substitution. -/
theorem replaceAll_subst (pat rep s : Chars) (hpat : pat ≠ []) :
    Subst pat rep s (replaceAll pat rep s) :=
  replaceAllF_subst pat rep hpat s.length s (Nat.le_refl _)

/-- The substitution C9 claims: the component placeholder replaced by the
world's name itself (not its snake-cased form). -/
def appManifestClaimed (rawYaml worldName rootPkg : Chars) : Chars :=
  replaceAll rootTok rootPkg (replaceAll compTok worldName rawYaml)

/-- C9 counterexample: for the world `my-world`, `generate_app_manifest`
substitutes the snake-cased name `my_world` for the `component_name`
placeholder, not the world's name `my-world` as claimed. -/
theorem genAppManifest_not_world_name :
    genAppManifest "name: component_name".data "my-world".data "a:b".data ≠
      appManifestClaimed "name: component_name".data "my-world".data "a:b".data ∧
    genAppManifest "name: component_name".data "my-world".data "a:b".data =
      "name: my_world".data := by
  constructor
  · decide
  · decide

/-- C9 amended: the app manifest derived from the skeleton substitutes every
occurrence of the `component_name` placeholder with the *snake-cased*
selected world name, then every occurrence of the `root:package` placeholder
with the root package's name. -/
theorem genAppManifest_substitutes (rawYaml worldName rootPkg : Chars) :
    ∃ mid, Subst compTok (toSnakeCase worldName) rawYaml mid ∧
      Subst rootTok rootPkg mid (genAppManifest rawYaml worldName rootPkg) :=
  ⟨replaceAll compTok (toSnakeCase worldName) rawYaml,
   replaceAll_subst compTok (toSnakeCase worldName) rawYaml (by decide),
   replaceAll_subst rootTok rootPkg _ (by decide)⟩

/-! ## C2 and C3: the dependency table of the generated manifest -/

/-- A package whose source files, relativized to the WIT root, lie under more
than one parent directory. -/
def SplitPkg (root : FPath) (p : PkgInfo) : Prop :=
  ∃ ps, p.paths = some ps ∧ 1 < (dedupParents root ps).length

theorem addWitDepsLoop_split_fails (root : FPath) :
    ∀ (l : List PkgInfo) (acc : List (Chars × FPath)),
    (∀ q ∈ l, ∀ qs, q.paths = some qs → dedupParents root qs ≠ []) →
    (∃ q ∈ l, SplitPkg root q) →
    ∃ q ∈ l, ∃ ps, q.paths = some ps ∧ 1 < (dedupParents root ps).length ∧
      addWitDepsLoop root l acc =
        Except.error (DepError.multipleSourceDirs q.name (dedupParents root ps)) := by
  intro l
  induction l with
  | nil =>
    intro acc _ hsplit
    simp at hsplit
  | cons p rest ih =>
    intro acc hne hsplit
    cases hp : p.paths with
    | none =>
      have hrest : ∃ q ∈ rest, SplitPkg root q := by
        obtain ⟨q, hq, hqs⟩ := hsplit
        rcases List.mem_cons.mp hq with h | h
        · subst h
          obtain ⟨ps, hps, _⟩ := hqs
          rw [hp] at hps
          exact absurd hps (by simp)
        · exact ⟨q, h, hqs⟩
      obtain ⟨q, hq, ps, hps, hlen, heq⟩ := ih acc
        (fun q hq => hne q (List.mem_cons_of_mem p hq)) hrest
      refine ⟨q, List.mem_cons_of_mem p hq, ps, hps, hlen, ?_⟩
      rw [addWitDepsLoop, hp]
      exact heq
    | some ps =>
      by_cases h1 : 1 < (dedupParents root ps).length
      · refine ⟨p, List.mem_cons_self p rest, ps, hp, h1, ?_⟩
        rw [addWitDepsLoop, hp]
        simp only [h1, if_pos]
      · have hpnot : ¬ SplitPkg root p := by
          rintro ⟨ps', hps', hlen'⟩
          rw [hp] at hps'
          have h2 : ps = ps' := by injection hps'
          subst h2
          exact h1 hlen'
        have hrest : ∃ q ∈ rest, SplitPkg root q := by
          obtain ⟨q, hq, hqs⟩ := hsplit
          rcases List.mem_cons.mp hq with h | h
          · subst h
            exact absurd hqs hpnot
          · exact ⟨q, h, hqs⟩
        have hne' : ∀ q ∈ rest, ∀ qs, q.paths = some qs → dedupParents root qs ≠ [] :=
          fun q hq => hne q (List.mem_cons_of_mem p hq)
        have hparne : dedupParents root ps ≠ [] :=
          hne p (List.mem_cons_self p rest) ps hp
        cases hpar : dedupParents root ps with
        | nil => exact absurd hpar hparne
        | cons parent rest' =>
          rw [hpar] at h1
          by_cases hroot : parent = []
          · obtain ⟨q, hq, ps', hps', hlen', heq⟩ := ih acc hne' hrest
            refine ⟨q, List.mem_cons_of_mem p hq, ps', hps', hlen', ?_⟩
            rw [addWitDepsLoop, hp]
            simp only [hpar]
            rw [if_neg h1, if_pos hroot]
            exact heq
          · obtain ⟨q, hq, ps', hps', hlen', heq⟩ :=
              ih (tableInsert (depEntryKey p.name) ("wit".data :: parent) acc) hne' hrest
            refine ⟨q, List.mem_cons_of_mem p hq, ps', hps', hlen', ?_⟩
            rw [addWitDepsLoop, hp]
            simp only [hpar]
            rw [if_neg h1, if_neg hroot]
            exact heq

/-- C2: if any resolved package's WIT source files, relativized to the WIT
root, lie under more than one parent sub-directory, `generate_wrapper_crate`
fails with the multiple-source-directories error naming an offending package
(and its parent set), and no file is written to the output directory. -/
theorem split_dep_fails_generation (g : Gens) (inp : GenInput) (t0 : FS)
    (ctx : RCtx) (hres : inp.resolveResult = Except.ok ctx)
    (hne : ∀ q ∈ ctx.packages, ∀ qs, q.paths = some qs →
      dedupParents ctx.witSourcePath qs ≠ [])
    (hsplit : ∃ q ∈ ctx.packages, SplitPkg ctx.witSourcePath q) :
    ∃ q ∈ ctx.packages, ∃ ps, q.paths = some ps ∧
      1 < (dedupParents ctx.witSourcePath ps).length ∧
      (runGenerate g inp t0).err = some (GenErr.depErr
        (DepError.multipleSourceDirs q.name (dedupParents ctx.witSourcePath ps))) ∧
      ∀ p, (runGenerate g inp t0).fs.files p = t0.files p := by
  obtain ⟨q, hq, ps, hps, hlen, heq⟩ :=
    addWitDepsLoop_split_fails ctx.witSourcePath ctx.packages [] hne hsplit
  refine ⟨q, hq, ps, hps, hlen, ?_, ?_⟩
  · rw [runGenerate, hres]
    simp only [addWitDependencies, heq]
  · intro p
    rw [runGenerate, hres]
    simp only [addWitDependencies, heq]
    rfl

/-- Concrete package for the C2 witness: files under both `deps/a` and
`deps/b`. -/
def pkgC2 : PkgInfo where
  name := { ns := "x".data, name := "y".data, version := none }
  paths := some [["deps".data, "a".data, "a.wit".data],
                 ["deps".data, "b".data, "b.wit".data]]

/-- Concrete resolved context for the C2 witness. -/
def ctxC2 : RCtx where
  worlds := []
  types := []
  interfaces := []
  packagesById := []
  packages := [pkgC2]
  selectedWorld := 0
  worldName := "w".data
  rootPackageName := { ns := "x".data, name := "y".data, version := none }
  witSourcePath := []

/-- Trivial generators for concrete pipeline witnesses. -/
def gensC : Gens where
  renderCargoToml := fun _ _ => []
  exportImpls := fun _ _ => Except.ok []
  importModules := fun _ => Except.ok []
  conversions := fun _ => Except.ok []

/-- The empty output tree. -/
def emptyFS : FS where
  files := fun _ => none
  dirs := fun _ => false

/-- Concrete generation input for the C2 witness. -/
def inpC2 : GenInput where
  resolveResult := Except.ok ctxC2
  worldArg := none
  jsModules := []
  skeletonFiles := []
  cargoConfigFiles := []
  rawGolemYaml := []
  witFiles := []

/-- Witness for C2: a dependency split across `deps/a` and `deps/b` aborts
generation with the error naming the package. -/
theorem split_dep_fails_generation_witness :
    ∃ q ∈ ctxC2.packages, ∃ ps, q.paths = some ps ∧
      1 < (dedupParents ctxC2.witSourcePath ps).length ∧
      (runGenerate gensC inpC2 emptyFS).err = some (GenErr.depErr
        (DepError.multipleSourceDirs q.name (dedupParents ctxC2.witSourcePath ps))) ∧
      ∀ p, (runGenerate gensC inpC2 emptyFS).fs.files p = emptyFS.files p :=
  split_dep_fails_generation gensC inpC2 emptyFS ctxC2 rfl
    (by decide) ⟨pkgC2, by decide, ⟨_, rfl, by decide⟩⟩

/-- The manifest entry contributed by one package: present exactly when the
package's files have a single nonempty parent directory relative to the WIT
root, with key the version-stripped package name and path the parent
prefixed by `wit/`. -/
def depEntry (root : FPath) (q : PkgInfo) : Option (Chars × FPath) :=
  match q.paths with
  | none => none
  | some qs =>
    match dedupParents root qs with
    | [parent] =>
      if parent = [] then none else some (depEntryKey q.name, "wit".data :: parent)
    | _ => none

theorem tableInsert_fresh (k : Chars) (v : FPath) (acc : List (Chars × FPath))
    (h : ∀ e ∈ acc, e.1 ≠ k) : tableInsert k v acc = acc ++ [(k, v)] := by
  rw [tableInsert, if_neg]
  simp only [List.any_eq_true, decide_eq_true_eq, not_exists, not_and]
  exact fun e he => h e he

theorem addWitDepsLoop_ok_shape (root : FPath) :
    ∀ (l : List PkgInfo) (acc : List (Chars × FPath)),
    (∀ q ∈ l, q.paths = none ∨
      ∃ qs, q.paths = some qs ∧ ∃ d, dedupParents root qs = [d]) →
    ((l.filterMap (depEntry root)).map Prod.fst).Nodup →
    (∀ k ∈ (l.filterMap (depEntry root)).map Prod.fst, ∀ e ∈ acc, e.1 ≠ k) →
    addWitDepsLoop root l acc = Except.ok (acc ++ l.filterMap (depEntry root)) := by
  intro l
  induction l with
  | nil =>
    intro acc _ _ _
    simp [addWitDepsLoop]
  | cons p rest ih =>
    intro acc hshape hnodup hfresh
    have hshape' : ∀ q ∈ rest, q.paths = none ∨
        ∃ qs, q.paths = some qs ∧ ∃ d, dedupParents root qs = [d] :=
      fun q hq => hshape q (List.mem_cons_of_mem p hq)
    rcases hshape p (List.mem_cons_self p rest) with hp | ⟨qs, hp, d, hd⟩
    · rw [addWitDepsLoop, hp]
      have hent : depEntry root p = none := by rw [depEntry, hp]
      have hfm : (p :: rest).filterMap (depEntry root) =
          rest.filterMap (depEntry root) := by
        rw [List.filterMap_cons, hent]
      rw [hfm] at hnodup hfresh ⊢
      exact ih acc hshape' hnodup hfresh
    · rw [addWitDepsLoop]
      simp only [hp, hd]
      rw [if_neg (by simp)]
      by_cases hdnil : d = []
      · rw [if_pos hdnil]
        have hent : depEntry root p = none := by
          rw [depEntry]
          simp only [hp, hd]
          rw [if_pos hdnil]
        have hfm : (p :: rest).filterMap (depEntry root) =
            rest.filterMap (depEntry root) := by
          rw [List.filterMap_cons, hent]
        rw [hfm] at hnodup hfresh ⊢
        exact ih acc hshape' hnodup hfresh
      · rw [if_neg hdnil]
        have hent : depEntry root p =
            some (depEntryKey p.name, "wit".data :: d) := by
          rw [depEntry]
          simp only [hp, hd]
          rw [if_neg hdnil]
        have hfm : (p :: rest).filterMap (depEntry root) =
            (depEntryKey p.name, "wit".data :: d) :: rest.filterMap (depEntry root) := by
          rw [List.filterMap_cons, hent]
        rw [hfm] at hnodup hfresh ⊢
        rw [List.map_cons] at hnodup hfresh
        have hkey_fresh : ∀ e ∈ acc, e.1 ≠ depEntryKey p.name :=
          hfresh (depEntryKey p.name) (List.mem_cons_self _ _)
        rw [tableInsert_fresh _ _ acc hkey_fresh]
        have hnodup' : ((rest.filterMap (depEntry root)).map Prod.fst).Nodup :=
          (List.nodup_cons.mp hnodup).2
        have hkey_notin : depEntryKey p.name ∉
            (rest.filterMap (depEntry root)).map Prod.fst :=
          (List.nodup_cons.mp hnodup).1
        have hfresh' : ∀ k ∈ (rest.filterMap (depEntry root)).map Prod.fst,
            ∀ e ∈ acc ++ [(depEntryKey p.name, "wit".data :: d)], e.1 ≠ k := by
          intro k hk e he
          rcases List.mem_append.mp he with h | h
          · exact hfresh k (List.mem_cons_of_mem _ hk) e h
          · have he2 : e = (depEntryKey p.name, "wit".data :: d) := by
              simpa using h
            rw [he2]
            intro hek
            apply hkey_notin
            rw [show depEntryKey p.name = k from hek]
            exact hk
        rw [ih (acc ++ [(depEntryKey p.name, "wit".data :: d)]) hshape' hnodup' hfresh']
        rw [List.append_assoc]
        rfl

/-- C3 amended: for a WIT package whose resolved packages each have all their
source files under a single parent directory relative to the WIT root (the
root package's files directly at the root), the generated dependency table is
exactly one entry per dependency package — keyed by the version-stripped
package name — whose path is the dependency's source directory relative to
the WIT root *prefixed with `wit/`* (the location of the copied WIT tree
inside the generated crate), in package order. -/
theorem addWitDependencies_dep_table (root : FPath) (l : List PkgInfo)
    (hshape : ∀ q ∈ l, q.paths = none ∨
      ∃ qs, q.paths = some qs ∧ ∃ d, dedupParents root qs = [d])
    (hnodup : ((l.filterMap (depEntry root)).map Prod.fst).Nodup) :
    addWitDependencies root l = Except.ok (l.filterMap (depEntry root)) ∧
    (∀ q ∈ l, ∀ qs d, q.paths = some qs → dedupParents root qs = [d] → d ≠ [] →
      depEntry root q = some (depEntryKey q.name, "wit".data :: d)) := by
  constructor
  · rw [addWitDependencies,
      addWitDepsLoop_ok_shape root l [] hshape hnodup (by simp)]
    rfl
  · intro q _ qs d hqs hd hdnil
    rw [depEntry]
    simp only [hqs, hd]
    rw [if_neg hdnil]

/-- Dependency packages for the C3 witness: two dependencies under
`deps/foo` and `deps/bar`, plus the root package directly at the WIT root. -/
def pkgsC3 : List PkgInfo :=
  [{ name := { ns := "r".data, name := "root".data, version := none }
     paths := some [["root.wit".data]] },
   { name := { ns := "x".data, name := "foo".data, version := none }
     paths := some [["deps".data, "foo".data, "foo.wit".data]] },
   { name := { ns := "x".data, name := "bar".data, version := none }
     paths := some [["deps".data, "bar".data, "bar.wit".data],
                    ["deps".data, "bar".data, "extra.wit".data]] }]

/-- Witness for the amended C3: with two dependencies under two distinct
sub-directories the table has exactly those two entries, with `wit/`-prefixed
paths, and none for the root package. -/
theorem addWitDependencies_dep_table_witness :
    addWitDependencies [] pkgsC3 = Except.ok (pkgsC3.filterMap (depEntry [])) ∧
    pkgsC3.filterMap (depEntry []) =
      [(depEntryKey { ns := "x".data, name := "foo".data, version := none },
        ["wit".data, "deps".data, "foo".data]),
       (depEntryKey { ns := "x".data, name := "bar".data, version := none },
        ["wit".data, "deps".data, "bar".data])] :=
  ⟨(addWitDependencies_dep_table [] pkgsC3
      (by
        intro q hq
        fin_cases hq
        · exact Or.inr ⟨_, rfl, [], rfl⟩
        · exact Or.inr ⟨_, rfl, ["deps".data, "foo".data], rfl⟩
        · exact Or.inr ⟨_, rfl, ["deps".data, "bar".data], rfl⟩)
      (by decide)).1, by rfl⟩

/-- C3 counterexample: the dependency entry's path is not the dependency's
source directory relative to the WIT root (`deps/foo`), but that directory
prefixed with `wit/`. -/
theorem depTable_path_not_relative :
    addWitDependencies []
      [{ name := { ns := "x".data, name := "foo".data, version := none }
         paths := some [["deps".data, "foo".data, "foo.wit".data]] }] =
      Except.ok [(depEntryKey { ns := "x".data, name := "foo".data, version := none },
        ["wit".data, "deps".data, "foo".data])] ∧
    (["wit".data, "deps".data, "foo".data] : FPath) ≠ ["deps".data, "foo".data] := by
  constructor
  · rfl
  · decide

/-! ## C7: generation is deterministic and idempotent over its inputs

Every staging step writes content that depends only on the run's inputs, not
on the pre-existing output tree (the one step that reads the output tree —
the world rewrite — only reads the `wit/` region that the same run has just
erased and re-copied).  Such steps are input-determined overlays, overlays
compose, and an overlay applied twice equals the overlay applied once. -/

theorem fsExt : ∀ {t1 t2 : FS}, t1.files = t2.files → t1.dirs = t2.dirs → t1 = t2
  | ⟨_, _⟩, ⟨_, _⟩, hf, hd => by cases hf; cases hd; rfl

/-- Overlaying an input-determined update on a tree: `f p = some v` forces
the file at `p` to `v` (`v = none` erases it), `f p = none` leaves it; `d`
adds directories. -/
def overlayF (f : FPath → Option (Option FileData)) (d : FPath → Bool) (t : FS) : FS :=
  { files := fun p => (f p).getD (t.files p), dirs := fun p => d p || t.dirs p }

/-- A tree transformer that is an input-determined overlay. -/
def DetF (s : FS → FS) : Prop :=
  ∃ f d, ∀ t, s t = overlayF f d t

theorem overlayF_idem (f : FPath → Option (Option FileData)) (d : FPath → Bool)
    (t : FS) : overlayF f d (overlayF f d t) = overlayF f d t := by
  refine fsExt (funext fun p => ?_) (funext fun p => ?_)
  · cases hf : f p <;> simp [overlayF, hf]
  · cases hd : d p <;> simp [overlayF, hd]

theorem DetF.idem {s : FS → FS} (h : DetF s) (t : FS) : s (s t) = s t := by
  obtain ⟨f, d, hs⟩ := h
  rw [hs, hs]
  exact overlayF_idem f d t

theorem DetF.comp {s1 s2 : FS → FS} (h1 : DetF s1) (h2 : DetF s2) :
    DetF (fun t => s2 (s1 t)) := by
  obtain ⟨f1, d1, hs1⟩ := h1
  obtain ⟨f2, d2, hs2⟩ := h2
  refine ⟨fun p => (f2 p).orElse (fun _ => f1 p), fun p => d2 p || d1 p, fun t => ?_⟩
  show s2 (s1 t) = _
  rw [hs1, hs2]
  refine fsExt (funext fun p => ?_) (funext fun p => ?_)
  · cases hf2 : f2 p <;> simp [overlayF, hf2, Option.orElse]
  · cases hd2 : d2 p <;> simp [overlayF, hd2, Bool.or_assoc]

theorem detF_id : DetF (fun t => t) :=
  ⟨fun _ => none, fun _ => false, fun _ =>
    fsExt (funext fun _ => rfl) (funext fun _ => rfl)⟩

theorem detF_mkdirAll (p : FPath) : DetF (mkdirAll p) :=
  ⟨fun _ => none, fun q => q = p, fun _ =>
    fsExt (funext fun _ => rfl) (funext fun _ => rfl)⟩

theorem detF_writeFile (p : FPath) (c : FileData) : DetF (writeFile p c) := by
  refine ⟨fun q => if q = p then some (some c) else none, fun _ => false, fun t =>
    fsExt (funext fun q => ?_) (funext fun _ => rfl)⟩
  by_cases hq : q = p <;> simp [writeFile, overlayF, hq]

theorem detF_writeMany (L : List (FPath × FileData)) : DetF (writeMany L) := by
  refine ⟨fun p => (lastLookup L p).map some, fun _ => false, fun t =>
    fsExt (funext fun p => ?_) (funext fun _ => rfl)⟩
  cases hl : lastLookup L p <;> simp [writeMany, overlayF, hl]

theorem detF_eraseUnder (d : FPath) : DetF (eraseUnder d) := by
  refine ⟨fun p => if segIsPre d p then some none else none, fun _ => false,
    fun t => fsExt (funext fun p => ?_) (funext fun _ => rfl)⟩
  by_cases hp : segIsPre d p <;> simp [eraseUnder, overlayF, hp]

theorem lastLookup_witPrefixed_none (wf : List (FPath × FileData)) (p : FPath)
    (hp : segIsPre ["wit".data] p = false) :
    lastLookup (witPrefixed wf) p = none := by
  induction wf using List.reverseRecOn with
  | nil => rfl
  | append_singleton wf e ih =>
    simp only [witPrefixed, List.map_append, List.map_singleton, lastLookup,
      List.foldl_append, List.foldl_cons, List.foldl_nil] at ih ⊢
    rw [if_neg]
    · exact ih
    · intro hcontra
      rw [← hcontra] at hp
      simp [segIsPre] at hp

theorem detF_witAndPatch (inp : GenInput) : DetF (stepWitAndPatch inp) := by
  by_cases hcomp : usesComposition inp.jsModules
  · refine ⟨fun p =>
      if segIsPre ["wit".data] p then
        some (patchFile inp.worldArg (lastLookup (witPrefixed inp.witFiles) p))
      else none,
      fun _ => false, fun t => ?_⟩
    rw [stepWitAndPatch]
    simp only [hcomp, if_pos]
    refine fsExt (funext fun p => ?_) (funext fun _ => rfl)
    by_cases hp : segIsPre ["wit".data] p
    · cases hl : lastLookup (witPrefixed inp.witFiles) p <;>
        simp [patchWitDir, writeMany, eraseUnder, overlayF, hp, hl]
    · have hl := lastLookup_witPrefixed_none inp.witFiles p (by simpa using hp)
      simp [patchWitDir, writeMany, eraseUnder, overlayF, hp, hl]
  · refine ⟨fun p =>
      if segIsPre ["wit".data] p then
        some (Option.map id (lastLookup (witPrefixed inp.witFiles) p))
      else none,
      fun _ => false, fun t => ?_⟩
    rw [stepWitAndPatch]
    simp only [hcomp, if_neg, if_false]
    refine fsExt (funext fun p => ?_) (funext fun _ => rfl)
    by_cases hp : segIsPre ["wit".data] p
    · cases hl : lastLookup (witPrefixed inp.witFiles) p <;>
        simp [writeMany, eraseUnder, overlayF, hp, hl]
    · have hl := lastLookup_witPrefixed_none inp.witFiles p (by simpa using hp)
      simp [writeMany, eraseUnder, overlayF, hp, hl]

theorem detF_stepDirs : DetF stepDirs :=
  ((detF_mkdirAll []).comp (detF_mkdirAll ["src".data])).comp
    (detF_mkdirAll ["src".data, "modules".data])

theorem detF_stepCargoConfig (inp : GenInput) : DetF (stepCargoConfig inp) := by
  cases hcc : inp.cargoConfigFiles with
  | nil =>
    refine ⟨fun _ => none, fun _ => false, fun t => ?_⟩
    rw [stepCargoConfig, hcc]
    exact fsExt (funext fun _ => rfl) (funext fun _ => rfl)
  | cons c cc =>
    obtain ⟨f, d, hs⟩ := (detF_mkdirAll [".cargo".data]).comp
      (detF_writeMany (c :: cc))
    refine ⟨f, d, fun t => ?_⟩
    rw [stepCargoConfig, hcc]
    exact hs t

theorem detF_stepSkeleton (inp : GenInput) : DetF (stepSkeleton inp) :=
  (detF_writeMany inp.skeletonFiles).comp
    (detF_mkdirAll ["src".data, "builtin".data])

/-- C7: generation is deterministic and idempotent over its inputs — running
`generate_wrapper_crate` a second time on the output directory produced by a
first run with the same inputs yields exactly the same output tree, trace and
outcome as the first run. -/
theorem runGenerate_idempotent (g : Gens) (inp : GenInput) (t0 : FS) :
    runGenerate g inp ((runGenerate g inp t0).fs) = runGenerate g inp t0 := by
  cases hres : inp.resolveResult with
  | error e =>
    simp only [runGenerate, hres]
    simp only [GenResult.mk.injEq, and_true]
    exact detF_stepDirs.idem t0
  | ok ctx =>
    cases hdep : addWitDependencies ctx.witSourcePath ctx.packages with
    | error e =>
      simp only [runGenerate, hres, hdep]
      simp only [GenResult.mk.injEq, and_true]
      exact detF_stepDirs.idem t0
    | ok depTable =>
      have hbase : DetF (fun t => stepJs inp (stepWitAndPatch inp
          (stepCargoConfig inp (stepSkeleton inp (stepAppManifest inp ctx
            (stepCargoToml g ctx depTable (stepDirs t))))))) :=
        (((((detF_stepDirs.comp (detF_writeFile _ _)).comp
          (detF_writeFile _ _)).comp (detF_stepSkeleton inp)).comp
          (detF_stepCargoConfig inp)).comp (detF_witAndPatch inp)).comp
          (detF_writeMany _)
      cases hexp : g.exportImpls ctx inp.jsModules with
      | error e =>
        simp only [runGenerate, hres, hdep, hexp]
        simp only [GenResult.mk.injEq, and_true]
        exact hbase.idem t0
      | ok libRs =>
        cases himp : g.importModules ctx with
        | error e =>
          simp only [runGenerate, hres, hdep, hexp, himp]
          simp only [GenResult.mk.injEq, and_true]
          exact (hbase.comp (detF_writeFile _ _)).idem t0
        | ok mods =>
          cases hconv : g.conversions ctx with
          | error e =>
            simp only [runGenerate, hres, hdep, hexp, himp, hconv]
            simp only [GenResult.mk.injEq, and_true]
            exact ((hbase.comp (detF_writeFile _ _)).comp
              (detF_writeMany _)).idem t0
          | ok conv =>
            simp only [runGenerate, hres, hdep, hexp, himp, hconv]
            simp only [GenResult.mk.injEq, and_true]
            exact (((hbase.comp (detF_writeFile _ _)).comp
              (detF_writeMany _)).comp (detF_writeFile _ _)).idem t0

/-! ## C8: resolution failures abort before any output beyond directory
creation -/

/-- C8: when WIT resolution fails (malformed input, missing or ambiguous
world), `generate_wrapper_crate` returns the resolution error and the only
effect on the output directory is the creation of the `output`, `output/src`
and `output/src/modules` directories — no file is written or changed. -/
theorem resolve_error_only_mkdirs (g : Gens) (inp : GenInput) (t0 : FS)
    (e : Chars) (hres : inp.resolveResult = Except.error e) :
    (runGenerate g inp t0).err = some (GenErr.resolveErr e) ∧
    (∀ p, (runGenerate g inp t0).fs.files p = t0.files p) ∧
    (∀ p, (runGenerate g inp t0).fs.dirs p =
      (decide (p = ["src".data, "modules".data]) ||
        (decide (p = ["src".data]) || (decide (p = ([] : FPath)) || t0.dirs p)))) := by
  simp [runGenerate, hres, stepDirs, mkdirAll]

/-- Concrete input for the C8 witness: the resolver rejects the WIT root. -/
def inpC8 : GenInput where
  resolveResult := Except.error "failed to resolve".data
  worldArg := none
  jsModules := []
  skeletonFiles := []
  cargoConfigFiles := []
  rawGolemYaml := []
  witFiles := []

/-- Witness for C8 at a concrete failing input. -/
theorem resolve_error_only_mkdirs_witness :
    (runGenerate gensC inpC8 emptyFS).err =
      some (GenErr.resolveErr "failed to resolve".data) ∧
    (∀ p, (runGenerate gensC inpC8 emptyFS).fs.files p = emptyFS.files p) ∧
    (∀ p, (runGenerate gensC inpC8 emptyFS).fs.dirs p =
      (decide (p = ["src".data, "modules".data]) ||
        (decide (p = ["src".data]) || (decide (p = ([] : FPath)) || emptyFS.dirs p)))) :=
  resolve_error_only_mkdirs gensC inpC8 emptyFS "failed to resolve".data rfl

/-! ## C6: composition mode — world rewrite and JS staging -/

/-- Index of the first occurrence of a stage tag in a trace. -/
def firstIdx (a : StepTag) : List StepTag → Option Nat
  | [] => none
  | b :: rest => if a = b then some 0 else (firstIdx a rest).map Nat.succ

/-- Does stage `a` occur, and strictly before the first occurrence of stage
`b`, in the trace? -/
def precedesTag (a b : StepTag) (l : List StepTag) : Bool :=
  match firstIdx a l, firstIdx b l with
  | some i, some j => decide (i < j)
  | _, _ => false

theorem lastLookup_none (L : List (FPath × FileData)) (p : FPath)
    (h : ∀ e ∈ L, e.1 ≠ p) : lastLookup L p = none := by
  induction L using List.reverseRecOn with
  | nil => rfl
  | append_singleton L e ih =>
    rw [lastLookup, List.foldl_append, List.foldl_cons, List.foldl_nil]
    rw [if_neg (h e (List.mem_append_right L (List.mem_singleton_self e)))]
    exact ih (fun e' he' => h e' (List.mem_append_left _ he'))

theorem lastLookup_unique (L : List (FPath × FileData)) (p : FPath)
    (v : FileData) (hmem : (p, v) ∈ L)
    (huniq : ∀ e ∈ L, e.1 = p → e.2 = v) : lastLookup L p = some v := by
  induction L using List.reverseRecOn with
  | nil => simp at hmem
  | append_singleton L e ih =>
    rw [lastLookup, List.foldl_append, List.foldl_cons, List.foldl_nil]
    by_cases he : e.1 = p
    · rw [if_pos he]
      rw [huniq e (List.mem_append_right L (List.mem_singleton_self e)) he]
    · rw [if_neg he]
      rcases List.mem_append.mp hmem with h | h
      · exact ih h (fun e' he' hp => huniq e' (List.mem_append_left _ he') hp)
      · exfalso
        have : (p, v) = e := by simpa using h
        exact he (by rw [← this])

theorem writeMany_files_untouched (L : List (FPath × FileData)) (t : FS)
    (p : FPath) (h : ∀ e ∈ L, e.1 ≠ p) : (writeMany L t).files p = t.files p := by
  rw [writeMany]
  simp only [lastLookup_none L p h]

theorem writeFile_files_ne (q : FPath) (c : FileData) (t : FS) (p : FPath)
    (h : p ≠ q) : (writeFile q c t).files p = t.files p := by
  simp [writeFile, h]

theorem lastLookup_witPrefixed_aux (p : FPath) :
    ∀ (wf : List (FPath × FileData)) (acc : Option FileData),
    List.foldl (fun acc e => if e.1 = ("wit".data :: p) then some e.2 else acc)
      acc (witPrefixed wf) =
    List.foldl (fun acc e => if e.1 = p then some e.2 else acc) acc wf := by
  intro wf
  induction wf with
  | nil => intro _; rfl
  | cons e wf ih =>
    intro acc
    rw [witPrefixed, List.map_cons, List.foldl_cons, List.foldl_cons]
    by_cases hc : e.1 = p
    · rw [if_pos (by simpa using hc), if_pos hc]
      exact ih _
    · rw [if_neg (by simpa using hc), if_neg hc]
      exact ih acc

/-- Looking up a copied WIT file under `wit/` finds the input tree's file. -/
theorem lastLookup_witPrefixed_cons (wf : List (FPath × FileData)) (p : FPath) :
    lastLookup (witPrefixed wf) ("wit".data :: p) = lastLookup wf p := by
  rw [lastLookup, lastLookup]
  exact lastLookup_witPrefixed_aux p wf none

/-- The file name of an embedded JS module never collides with the generated
`lib.rs`: it ends in `.js`. -/
theorem specFileName_ne_lib (n : Chars) : specFileName n ≠ "lib.rs".data := by
  intro h
  have h2 := congrArg List.reverse h
  simp [specFileName, List.reverse_append] at h2

/-- The file name of an embedded JS module never collides with the generated
`conversions.rs`. -/
theorem specFileName_ne_conv (n : Chars) :
    specFileName n ≠ "conversions.rs".data := by
  intro h
  have h2 := congrArg List.reverse h
  simp [specFileName, List.reverse_append] at h2


/-- Pointwise reading of `writeMany`: a recorded last write wins. -/
theorem writeMany_files_hit (L : List (FPath × FileData)) (t : FS) (p : FPath)
    (v : FileData) (h : lastLookup L p = some v) :
    (writeMany L t).files p = some v := by
  show (match lastLookup L p with
    | some v => some v
    | none => t.files p) = some v
  rw [h]

/-- Pointwise reading of `writeMany`: an unwritten path is unchanged. -/
theorem writeMany_files_miss (L : List (FPath × FileData)) (t : FS) (p : FPath)
    (h : lastLookup L p = none) : (writeMany L t).files p = t.files p := by
  show (match lastLookup L p with
    | some v => some v
    | none => t.files p) = t.files p
  rw [h]

/-- Pointwise reading of `patchWitDir`. -/
theorem patchWitDir_files (sel : Option Chars) (t : FS) (p : FPath) :
    (patchWitDir sel t).files p =
      if segIsPre ["wit".data] p then patchFile sel (t.files p) else t.files p :=
  rfl

/-- Pointwise reading of `eraseUnder`. -/
theorem eraseUnder_files (d : FPath) (t : FS) (p : FPath) :
    (eraseUnder d t).files p = if segIsPre d p then none else t.files p :=
  rfl

theorem jsWrites_mem (mods : List JsModuleSpecM) :
    ∀ e ∈ jsWrites mods, ∃ m ∈ mods, ∃ c,
      m.mode = EmbeddingModeM.embedFile c ∧
      e = (["src".data, specFileName m.name], FileData.text c) := by
  intro e he
  obtain ⟨m, hm, heq⟩ := List.mem_filterMap.mp he
  cases hmode : m.mode with
  | embedFile c =>
    rw [hmode] at heq
    exact ⟨m, hm, c, hmode, by simpa using heq.symm⟩
  | composition =>
    rw [hmode] at heq
    exact absurd heq (by simp)

theorem jsWrites_mem_intro (mods : List JsModuleSpecM) (m : JsModuleSpecM)
    (c : Chars) (hm : m ∈ mods) (hmode : m.mode = EmbeddingModeM.embedFile c) :
    (["src".data, specFileName m.name], FileData.text c) ∈ jsWrites mods :=
  List.mem_filterMap.mpr ⟨m, hm, by rw [hmode]⟩

theorem stepCargoConfig_files_untouched (inp : GenInput) (t : FS) (p : FPath)
    (h : ∀ e ∈ inp.cargoConfigFiles, e.1 ≠ p) :
    (stepCargoConfig inp t).files p = t.files p := by
  rw [stepCargoConfig]
  cases hcc : inp.cargoConfigFiles with
  | nil => rfl
  | cons c cc =>
    rw [writeMany_files_untouched _ _ _ (by rw [hcc] at h; exact h)]
    rfl

theorem stepSkeleton_files_untouched (inp : GenInput) (t : FS) (p : FPath)
    (h : ∀ e ∈ inp.skeletonFiles, e.1 ≠ p) :
    (stepSkeleton inp t).files p = t.files p := by
  rw [stepSkeleton]
  show (writeMany inp.skeletonFiles t).files p = t.files p
  exact writeMany_files_untouched _ _ _ h

/-- C6 amended: when at least one module spec uses composition mode (on an
otherwise successful run), (i) the WIT tree is first copied out and *then*
the copied world is rewritten — the rewrite follows the copy and applies to
the copy; (ii) every copied WIT document in the output package is the input
document with the selected world's imports extended by the synthetic
`get-script` import (an entry the input world did not have); (iii) no
JavaScript file is written for a composition-mode module; and (iv) every
embed-mode module's contents are written to `src/<file_name>`. -/
theorem composition_rewrites_copied_world
    (g : Gens) (inp : GenInput) (t0 : FS) (ctx : RCtx)
    (dt : List (Chars × FPath)) (libRs : Chars) (mods : List (Chars × Chars))
    (conv : Chars)
    (hres : inp.resolveResult = Except.ok ctx)
    (hdt : addWitDependencies ctx.witSourcePath ctx.packages = Except.ok dt)
    (hexp : g.exportImpls ctx inp.jsModules = Except.ok libRs)
    (himp : g.importModules ctx = Except.ok mods)
    (hconv : g.conversions ctx = Except.ok conv)
    (hcomp : usesComposition inp.jsModules = true) :
    precedesTag StepTag.copyWitTree StepTag.addGetScriptImport
      (runGenerate g inp t0).steps = true ∧
    (∀ p doc, lastLookup inp.witFiles p = some (FileData.wit doc) →
      (runGenerate g inp t0).fs.files ("wit".data :: p) =
        some (FileData.wit (patchDoc inp.worldArg doc))) ∧
    (∀ doc w, w ∈ doc.worlds → selectedDocWorld inp.worldArg w = true →
      { w with imports := w.imports ++ [getScriptImportName] } ∈
        (patchDoc inp.worldArg doc).worlds) ∧
    (∀ m ∈ inp.jsModules, m.mode = EmbeddingModeM.composition →
      (∀ e ∈ inp.skeletonFiles, e.1 ≠ ["src".data, specFileName m.name]) →
      (∀ e ∈ inp.cargoConfigFiles, e.1 ≠ ["src".data, specFileName m.name]) →
      (∀ m' ∈ inp.jsModules, ∀ c', m'.mode = EmbeddingModeM.embedFile c' →
        specFileName m'.name ≠ specFileName m.name) →
      (runGenerate g inp t0).fs.files ["src".data, specFileName m.name] =
        t0.files ["src".data, specFileName m.name]) ∧
    (∀ m ∈ inp.jsModules, ∀ c, m.mode = EmbeddingModeM.embedFile c →
      (∀ m' ∈ inp.jsModules, ∀ c', m'.mode = EmbeddingModeM.embedFile c' →
        specFileName m'.name = specFileName m.name → m' = m) →
      (runGenerate g inp t0).fs.files ["src".data, specFileName m.name] =
        some (FileData.text c)) := by
  simp only [runGenerate, hres, hdt, hexp, himp, hconv]
  refine ⟨?_, ?_, ?_, ?_, ?_⟩
  · rw [hcomp]
    decide
  · intro p doc hdoc
    rw [stepConv, writeFile_files_ne _ _ _ _ (by simp)]
    rw [stepImports, writeMany_files_untouched _ _ _ (by
      intro e he
      obtain ⟨m', _, heq⟩ := List.mem_map.mp he
      rw [← heq]
      simp)]
    rw [stepLib, writeFile_files_ne _ _ _ _ (by simp)]
    rw [stepJs, writeMany_files_untouched _ _ _ (by
      intro e he
      obtain ⟨m', _, c', _, heq⟩ := jsWrites_mem inp.jsModules e he
      rw [heq]
      simp)]
    rw [stepWitAndPatch]
    simp only [hcomp, if_pos]
    rw [patchWitDir_files, if_pos (by simp [segIsPre])]
    rw [writeMany_files_hit _ _ _ (FileData.wit doc)
      (by rw [lastLookup_witPrefixed_cons]; exact hdoc)]
    rfl
  · intro doc w hw hsel
    rw [patchDoc]
    simp only [List.mem_map]
    exact ⟨w, hw, by rw [if_pos hsel]⟩
  · intro m hm hmode hskel hcc hother
    rw [stepConv, writeFile_files_ne _ _ _ _ (by
      intro hc
      exact specFileName_ne_conv m.name (by simpa using hc))]
    rw [stepImports, writeMany_files_untouched _ _ _ (by
      intro e he
      obtain ⟨m', _, heq⟩ := List.mem_map.mp he
      rw [← heq]
      simp)]
    rw [stepLib, writeFile_files_ne _ _ _ _ (by
      intro hc
      exact specFileName_ne_lib m.name (by simpa using hc))]
    rw [stepJs, writeMany_files_untouched _ _ _ (by
      intro e he
      obtain ⟨m', hm', c', hmode', heq⟩ := jsWrites_mem inp.jsModules e he
      rw [heq]
      intro hc
      exact hother m' hm' c' hmode' (by simpa using hc))]
    rw [stepWitAndPatch]
    simp only [hcomp, if_pos]
    rw [patchWitDir_files, if_neg (by simp [segIsPre])]
    rw [writeMany_files_miss _ _ _
      (lastLookup_witPrefixed_none inp.witFiles
        ["src".data, specFileName m.name] (by simp [segIsPre]))]
    rw [eraseUnder_files, if_neg (by simp [segIsPre])]
    rw [stepCargoConfig_files_untouched inp _ _ hcc]
    rw [stepSkeleton_files_untouched inp _ _ hskel]
    rw [stepAppManifest, writeFile_files_ne _ _ _ _ (by simp)]
    rw [stepCargoToml, writeFile_files_ne _ _ _ _ (by simp)]
    rfl
  · intro m hm c hmode huniq
    rw [stepConv, writeFile_files_ne _ _ _ _ (by
      intro hc
      exact specFileName_ne_conv m.name (by simpa using hc))]
    rw [stepImports, writeMany_files_untouched _ _ _ (by
      intro e he
      obtain ⟨m', _, heq⟩ := List.mem_map.mp he
      rw [← heq]
      simp)]
    rw [stepLib, writeFile_files_ne _ _ _ _ (by
      intro hc
      exact specFileName_ne_lib m.name (by simpa using hc))]
    have hlook : lastLookup (jsWrites inp.jsModules)
        ["src".data, specFileName m.name] = some (FileData.text c) := by
      apply lastLookup_unique _ _ _ (jsWrites_mem_intro inp.jsModules m c hm hmode)
      intro e he hep
      obtain ⟨m', hm', c', hmode', heq⟩ := jsWrites_mem inp.jsModules e he
      rw [heq] at hep ⊢
      have hfn : specFileName m'.name = specFileName m.name := by simpa using hep
      have hmm : m' = m := huniq m' hm' c' hmode' hfn
      rw [hmm] at hmode'
      rw [hmode'] at hmode
      have hcc2 : c' = c := by injection hmode
      rw [hcc2]
    rw [stepJs, writeMany_files_hit _ _ _ _ hlook]

/-- Concrete resolved context for the C6/C9 witnesses: no packages, so the
dependency table is empty and generation succeeds. -/
def ctxC6 : RCtx where
  worlds := []
  types := []
  interfaces := []
  packagesById := []
  packages := []
  selectedWorld := 0
  worldName := "demo-world".data
  rootPackageName := { ns := "demo".data, name := "pkg".data, version := none }
  witSourcePath := []

/-- The single world of the C6 input WIT document. -/
def worldDocC6 : WitWorldDef where
  name := "w".data
  imports := []
  exports := ["run".data]

/-- The C6 input WIT document. -/
def docC6 : WitDoc where
  worlds := [worldDocC6]
  rest := []

/-- The composition-mode module spec of the C6 input. -/
def modC6 : JsModuleSpecM where
  name := "m".data
  mode := EmbeddingModeM.composition

/-- Concrete generation input for C6: one composition-mode module, one WIT
document holding the selected world. -/
def inpC6 : GenInput where
  resolveResult := Except.ok ctxC6
  worldArg := some "w".data
  jsModules := [modC6]
  skeletonFiles := []
  cargoConfigFiles := []
  rawGolemYaml := "name: component_name of root:package".data
  witFiles := [(["w.wit".data], FileData.wit docC6)]

/-- C6 counterexample: on a successful composition-mode run the world rewrite
does *not* precede the copying-out of the WIT package tree — the trace has
`copyWitTree` strictly before `addGetScriptImport`. -/
theorem addGetScriptImport_not_before_copy :
    usesComposition inpC6.jsModules = true ∧
    (runGenerate gensC inpC6 emptyFS).err = none ∧
    precedesTag StepTag.addGetScriptImport StepTag.copyWitTree
      (runGenerate gensC inpC6 emptyFS).steps = false ∧
    precedesTag StepTag.copyWitTree StepTag.addGetScriptImport
      (runGenerate gensC inpC6 emptyFS).steps = true := by
  refine ⟨rfl, rfl, ?_, ?_⟩ <;> decide

/-- Witness for the amended C6 at the concrete input: the copied document's
world gains the `get-script` import, and no JS file is staged for the
composition module. -/
theorem composition_rewrites_copied_world_witness :
    (runGenerate gensC inpC6 emptyFS).fs.files ["wit".data, "w.wit".data] =
      some (FileData.wit (patchDoc inpC6.worldArg docC6)) ∧
    (runGenerate gensC inpC6 emptyFS).fs.files
      ["src".data, specFileName modC6.name] =
      emptyFS.files ["src".data, specFileName modC6.name] := by
  have h := composition_rewrites_copied_world gensC inpC6 emptyFS ctxC6
    [] [] [] [] rfl rfl rfl rfl rfl rfl
  refine ⟨h.2.1 ["w.wit".data] docC6 rfl, ?_⟩
  refine h.2.2.2.1 modC6 (List.mem_singleton_self modC6) rfl
    (by simp [inpC6]) (by simp [inpC6]) ?_
  intro m' hm' c' hmode'
  have hm : m' = modC6 := by simpa [inpC6] using hm'
  rw [hm] at hmode'
  exact absurd hmode' (by simp [modC6])

/-! ## C9 (pipeline form): generation writes the substituted app manifest -/

theorem writeFile_files_self (p : FPath) (c : FileData) (t : FS) :
    (writeFile p c t).files p = some c := by
  simp [writeFile]

theorem stepWitAndPatch_files_outside (inp : GenInput) (t : FS) (p : FPath)
    (hp : segIsPre ["wit".data] p = false) :
    (stepWitAndPatch inp t).files p = t.files p := by
  rw [stepWitAndPatch]
  have hbase : (writeMany (witPrefixed inp.witFiles)
      (eraseUnder ["wit".data] t)).files p = t.files p := by
    rw [writeMany_files_miss _ _ _ (lastLookup_witPrefixed_none inp.witFiles p hp)]
    rw [eraseUnder_files, if_neg (by rw [hp]; exact Bool.false_ne_true)]
  by_cases hcomp : usesComposition inp.jsModules
  · simp only [hcomp, if_pos]
    rw [patchWitDir_files, if_neg (by rw [hp]; exact Bool.false_ne_true)]
    exact hbase
  · simp only [hcomp, if_neg, if_false]
    exact hbase

/-- C9 amended: on a successful run, generation writes the deployment
manifest `golem.yaml`, whose contents are the skeleton manifest with every
occurrence of the `component_name` placeholder substituted by the
*snake-cased* selected world name and then every occurrence of the
`root:package` placeholder substituted by the root package's name. -/
theorem generation_writes_app_manifest
    (g : Gens) (inp : GenInput) (t0 : FS) (ctx : RCtx)
    (dt : List (Chars × FPath)) (libRs : Chars) (mods : List (Chars × Chars))
    (conv : Chars)
    (hres : inp.resolveResult = Except.ok ctx)
    (hdt : addWitDependencies ctx.witSourcePath ctx.packages = Except.ok dt)
    (hexp : g.exportImpls ctx inp.jsModules = Except.ok libRs)
    (himp : g.importModules ctx = Except.ok mods)
    (hconv : g.conversions ctx = Except.ok conv)
    (hskel : ∀ e ∈ inp.skeletonFiles, e.1 ≠ ["golem.yaml".data])
    (hcc : ∀ e ∈ inp.cargoConfigFiles, e.1 ≠ ["golem.yaml".data]) :
    ∃ out, (runGenerate g inp t0).fs.files ["golem.yaml".data] =
        some (FileData.text out) ∧
      ∃ mid, Subst compTok (toSnakeCase ctx.worldName) inp.rawGolemYaml mid ∧
        Subst rootTok ctx.rootPackageName.toChars mid out := by
  refine ⟨genAppManifest inp.rawGolemYaml ctx.worldName ctx.rootPackageName.toChars,
    ?_, genAppManifest_substitutes inp.rawGolemYaml ctx.worldName
      ctx.rootPackageName.toChars⟩
  simp only [runGenerate, hres, hdt, hexp, himp, hconv]
  rw [stepConv, writeFile_files_ne _ _ _ _ (by simp)]
  rw [stepImports, writeMany_files_untouched _ _ _ (by
    intro e he
    obtain ⟨m', _, heq⟩ := List.mem_map.mp he
    rw [← heq]
    simp)]
  rw [stepLib, writeFile_files_ne _ _ _ _ (by simp)]
  rw [stepJs, writeMany_files_untouched _ _ _ (by
    intro e he
    obtain ⟨m', _, c', _, heq⟩ := jsWrites_mem inp.jsModules e he
    rw [heq]
    simp)]
  rw [stepWitAndPatch_files_outside _ _ _ (by decide)]
  rw [stepCargoConfig_files_untouched inp _ _ hcc]
  rw [stepSkeleton_files_untouched inp _ _ hskel]
  rw [stepAppManifest, writeFile_files_self]

/-- Witness for the amended C9 at the concrete C6 input. -/
theorem generation_writes_app_manifest_witness :
    ∃ out, (runGenerate gensC inpC6 emptyFS).fs.files ["golem.yaml".data] =
        some (FileData.text out) ∧
      ∃ mid, Subst compTok (toSnakeCase ctxC6.worldName) inpC6.rawGolemYaml mid ∧
        Subst rootTok ctxC6.rootPackageName.toChars mid out :=
  generation_writes_app_manifest gensC inpC6 emptyFS ctxC6 [] [] [] []
    rfl rfl rfl rfl rfl (by simp [inpC6]) (by simp [inpC6])

/-! ## C10: embedded JS module file naming -/

/-- C10: an embed-mode module is staged at `src/<name with every '/' replaced
by '_'>.js` — a single path segment directly under `src` (the file name never
contains `'/'`, so no subdirectory is created), and two module names that
agree after replacing `'/'` by `'_'` are staged at the same destination
file. -/
theorem specFileName_flattens (n1 n2 : Chars) :
    specFileName n1 =
      n1.map (fun c => if c = '/' then '_' else c) ++ ".js".data ∧
    '/' ∉ specFileName n1 ∧
    (∀ (mods : List JsModuleSpecM) (m : JsModuleSpecM) (c : Chars),
      m ∈ mods → m.mode = EmbeddingModeM.embedFile c →
      (["src".data, specFileName m.name], FileData.text c) ∈ jsWrites mods) ∧
    (n1.map (fun c => if c = '/' then '_' else c) =
        n2.map (fun c => if c = '/' then '_' else c) →
      specFileName n1 = specFileName n2) := by
  refine ⟨rfl, ?_, jsWrites_mem_intro, ?_⟩
  · intro hmem
    rcases List.mem_append.mp hmem with h | h
    · obtain ⟨c, _, hc⟩ := List.mem_map.mp h
      by_cases hc' : c = '/'
      · rw [if_pos hc'] at hc
        exact absurd hc (by decide)
      · rw [if_neg hc'] at hc
        exact hc' hc
    · exact absurd h (by decide)
  · intro hmap
    rw [specFileName, specFileName, hmap]

/-- Witness for C10: the module names `a/b` and `a_b` collide at the single
destination segment `a_b.js`, which contains no `'/'`. -/
theorem specFileName_flattens_witness :
    '/' ∉ specFileName "a/b".data ∧
    specFileName "a/b".data = specFileName "a_b".data :=
  ⟨(specFileName_flattens "a/b".data "a_b".data).2.1,
   (specFileName_flattens "a/b".data "a_b".data).2.2.2 (by decide)⟩

end WasmRquickjs
